import Mathlib

/-!
Shallow embedding of the scheduling and booking core of the summerProject
repository (src/models.py, src/scheduler.py, src/portal.py, src/main.py),
together with proofs about it.

Modelling conventions:
* Dates are natural numbers counting days from a fixed Monday epoch, so
  Python's `date.weekday()` (Monday = 0) is `d % 7`, and
  `d + timedelta(days=k)` is `d + k`.
* Date-times are integers counting minutes: `1440 * date + minute_of_day`.
* Python strings are Lean `String`s.  Python's `<` on strings compares the
  code-point sequences lexicographically; `pyCharsLt` below is that order on
  the underlying character lists (Lean's builtin `String` order does not
  reduce in the kernel, so we spell the same order out).
* The SQLAlchemy store is a `State` record of entity lists.  The session
  autoflushes, so a query made during an operation sees earlier uncommitted
  adds of the same operation; the model therefore threads the lists through
  each operation directly.  An uncaught Python exception rolls the
  transaction back, which is modelled by `Except.error` (no state survives).
* ORM mutation of a row fetched by primary key is modelled by rewriting the
  list entry (entries are addressed by their `id` field, the primary key).
-/

namespace Summer

/-- Constant `ALLOWED_DAYS` from models.py. -/
def ALLOWED_DAYS : List String := ["Monday", "Wednesday", "Friday", "Saturday"]

/-- Constant `TIME_SLOTS_BY_DAY` from models.py.  The Python dict lookup raises
`KeyError` off `ALLOWED_DAYS`; every caller accesses only allowed days, so the
catch-all branch is unreachable in the modelled code paths. -/
def TIME_SLOTS_BY_DAY (day : String) : List String :=
  if day = "Monday" then ["4-5pm", "5-6pm", "6-7pm"]
  else if day = "Wednesday" then ["4-5pm", "5-6pm", "6-7pm"]
  else if day = "Friday" then ["4-5pm", "5-6pm", "6-7pm"]
  else if day = "Saturday" then ["2-3pm", "3-4pm"]
  else []

/-- Constant `TIME_SLOT_RANGES` from models.py, as minutes of the day; `none` models the
`KeyError` raised on an unknown slot. -/
def TIME_SLOT_RANGES (slot : String) : Option (Nat × Nat) :=
  if slot = "4-5pm" then some (960, 1020)
  else if slot = "5-6pm" then some (1020, 1080)
  else if slot = "6-7pm" then some (1080, 1140)
  else if slot = "2-3pm" then some (840, 900)
  else if slot = "3-4pm" then some (900, 960)
  else none

/-- Constant `WEEKDAY_INDEX` from models.py.  Total dict over the seven day names; the
catch-all (Python `KeyError`) is unreachable for validated day names. -/
def WEEKDAY_INDEX (day : String) : Nat :=
  if day = "Monday" then 0
  else if day = "Tuesday" then 1
  else if day = "Wednesday" then 2
  else if day = "Thursday" then 3
  else if day = "Friday" then 4
  else if day = "Saturday" then 5
  else if day = "Sunday" then 6
  else 0

/-- Lookup `GRADE_BY_SLOT.get(slot, 1)` from scheduler.py: the fixed slot-to-grade
lookup with default grade 1. -/
def GRADE_BY_SLOT (slot : String) : Nat :=
  if slot = "4-5pm" then 1
  else if slot = "5-6pm" then 2
  else if slot = "6-7pm" then 3
  else if slot = "2-3pm" then 4
  else if slot = "3-4pm" then 5
  else 1

/-- Python's `<` on strings, on the underlying character lists: code-point
lexicographic order. -/
def pyCharsLt : List Char → List Char → Bool
  | [], [] => false
  | [], _ :: _ => true
  | _ :: _, [] => false
  | a :: as, b :: bs => if a = b then pyCharsLt as bs else decide (a.toNat < b.toNat)

/-- Python's `<` on strings. -/
def pyStrLt (a b : String) : Bool := pyCharsLt a.data b.data

/-- Python's `<=` on strings. -/
def pyStrLe (a b : String) : Bool := pyStrLt a b || decide (a = b)

/-- An event as yielded by `_iter_events` in scheduler.py:
`(lesson_date, day_of_week, time_slot)`. -/
abbrev Event := Nat × String × String

/-- The Python tuple order on the sort key `(e[0], e[2])` used by
`sorted(..., key=lambda e: (e[0], e[2]))` in scheduler.py. -/
def eventKeyLe (a b : Event) : Prop :=
  a.1 < b.1 ∨ (a.1 = b.1 ∧ pyStrLe a.2.2 b.2.2 = true)

instance : DecidableRel eventKeyLe := fun a b => by
  unfold eventKeyLe; infer_instance

/-- Rows of the `coaches` table (only the scheduling-relevant column). -/
structure Coach where
  id : Nat
deriving DecidableEq

/-- Rows of the `learners` table (only the booking-relevant columns). -/
structure Learner where
  id : Nat
  current_grade : Nat
deriving DecidableEq

/-- Rows of the `lessons` table. -/
structure Lesson where
  id : Nat
  day_of_week : String
  time_slot : String
  grade_level : Nat
  coach_id : Nat
  max_capacity : Nat
  lesson_date : Nat
deriving DecidableEq

/-- Rows of the `lesson_templates` table. -/
structure LessonTemplate where
  id : Nat
  day_of_week : String
  time_slot : String
  grade_level : Nat
  coach_id : Nat
deriving DecidableEq

/-- Rows of the `bookings` table. -/
structure Booking where
  id : Nat
  learner_id : Nat
  lesson_id : Nat
  booking_status : String
  attended : Bool
  grade_updated : Bool
deriving DecidableEq

/-- The transactional store: the tables, plus autoincrement counters for the
primary keys handed out on insert. -/
structure State where
  coaches : List Coach
  learners : List Learner
  lessons : List Lesson
  templates : List LessonTemplate
  bookings : List Booking
  nextLessonId : Nat
  nextBookingId : Nat
deriving DecidableEq

/-- Ascending order on coach ids (`order_by(Coach.id)`). -/
def coachLe (a b : Coach) : Prop := a.id ≤ b.id

instance : DecidableRel coachLe := fun a b => Nat.decLe a.id b.id

instance : IsTotal Coach coachLe := ⟨fun a b => Nat.le_total a.id b.id⟩

instance : IsTrans Coach coachLe := ⟨fun _ _ _ h1 h2 => Nat.le_trans h1 h2⟩

/-- Query `Coach.query.order_by(Coach.id).all()`: the coach roster in ascending id
order (insertion sort is a stable sort, matching the store's deterministic
order for the distinct primary keys). -/
def sortCoaches (cs : List Coach) : List Coach :=
  List.insertionSort coachLe cs

/-- Call `sorted(events, key=lambda e: (e[0], e[2]))` from scheduler.py.  Insertion
sort is a stable sort, as Python's `sorted` is; the event keys are moreover
pairwise distinct (proved below), so every sort agrees here. -/
def sortEvents (es : List Event) : List Event :=
  List.insertionSort eventKeyLe es

/-- Function `_next_on_or_after` from scheduler.py (identical to
`_next_weekday_on_or_after` in models.py): `d + ((target - d.weekday()) % 7)`.
Python's `%` of the possibly negative `target - d.weekday()` is the
nonnegative residue, written here as `(target + 7 - d % 7) % 7` (no natural
subtraction truncates because `d % 7 < 7 ≤ target + 7`). -/
def next_on_or_after (d : Nat) (weekday_name : String) : Nat :=
  d + (WEEKDAY_INDEX weekday_name + 7 - d % 7) % 7

/-- Fuel-indexed unfolding of the `while current < end:` loops of
`_iter_events` (scheduler.py) and `Lesson.generate_for_weeks` (models.py);
each iteration yields `current` and advances it by 7 days. -/
def whileDatesAux : Nat → Nat → Nat → List Nat
  | 0, _, _ => []
  | fuel + 1, current, stop =>
    if current < stop then current :: whileDatesAux fuel (current + 7) stop else []

/-- The list of dates visited by a `while current < stop: ...; current += 7`
loop.  `stop - current` iterations are always enough fuel, and
`whileDates_eq` below recovers the defining loop equation. -/
def whileDates (current stop : Nat) : List Nat :=
  whileDatesAux (stop - current) current stop

/-- The events one allowed day contributes to `_iter_events`: for each weekly
occurrence date before `stop`, one event per time slot of the day. -/
def dayEvents (start stop : Nat) (day : String) : List Event :=
  (whileDates (next_on_or_after start day) stop).flatMap fun dt =>
    (TIME_SLOTS_BY_DAY day).map fun slot => (dt, day, slot)

/-- Generator `_iter_events` from scheduler.py: the days' blocks in `ALLOWED_DAYS`
order. -/
def iter_events (start stop : Nat) : List Event :=
  ALLOWED_DAYS.flatMap (dayEvents start stop)

/-- Method `Lesson.validate_day_and_slot` from models.py; `true` iff no `ValueError`
is raised. -/
def validate_day_and_slot (day_of_week time_slot : String) : Bool :=
  ALLOWED_DAYS.contains day_of_week
    && (TIME_SLOTS_BY_DAY day_of_week).contains time_slot

/-- One weekly occurrence of one template inside `Lesson.generate_for_weeks`:
skip if a lesson with the same (date, slot, coach) is already visible (the
autoflushing session also sees this call's earlier adds), else add one lesson
carrying the template's day/slot/grade/coach.  The accumulator is
`(created, state)`. -/
def generateStep (tmpl : LessonTemplate) (acc : Nat × State) (dt : Nat) : Nat × State :=
  let st := acc.2
  if st.lessons.any fun l =>
      decide (l.lesson_date = dt) && decide (l.time_slot = tmpl.time_slot)
        && decide (l.coach_id = tmpl.coach_id) then
    acc
  else
    (acc.1 + 1,
     { st with
        lessons := st.lessons ++
          [{ id := st.nextLessonId
             day_of_week := tmpl.day_of_week
             time_slot := tmpl.time_slot
             grade_level := tmpl.grade_level
             coach_id := tmpl.coach_id
             max_capacity := 4
             lesson_date := dt }]
        nextLessonId := st.nextLessonId + 1 })

/-- The `for tmpl in templates:` loop of `Lesson.generate_for_weeks`: validate
the template (raising aborts the whole call), then walk its weekly occurrence
dates. -/
def expandTemplates (start_on end_on : Nat) :
    List LessonTemplate → (Nat × State) → Except String (Nat × State)
  | [], acc => Except.ok acc
  | tmpl :: rest, acc =>
    if validate_day_and_slot tmpl.day_of_week tmpl.time_slot then
      expandTemplates start_on end_on rest
        ((whileDates (next_on_or_after start_on tmpl.day_of_week) end_on).foldl
          (generateStep tmpl) acc)
    else Except.error "ValueError"

/-- Method `Lesson.generate_for_weeks` from models.py.  `templates = none` models the
Python default `templates=None` (expand every `LessonTemplate` row).  Returns
the created count and the new state; `Except.error` models the `ValueError`
raised by `validate_day_and_slot` (the transaction rolls back, so no state
survives the exception). -/
def generate_for_weeks (s : State) (start_on : Nat) (weeks : Nat)
    (templates : Option (List LessonTemplate)) : Except String (Nat × State) :=
  expandTemplates start_on (start_on + 7 * weeks) (templates.getD s.templates) ((0 : Nat), s)

/-- Function `ensure_schedule` from scheduler.py. -/
def ensure_schedule (s : State) (start : Nat) (weeks : Nat) : Except String State :=
  let stop := start + 7 * weeks
  if s.lessons.any fun l =>
      decide (start ≤ l.lesson_date) && decide (l.lesson_date < stop) then
    Except.ok s
  else
    let coaches := sortCoaches s.coaches
    if coaches.isEmpty then
      Except.ok s
    else if 0 < s.templates.length then
      (generate_for_weeks s start weeks none).map (fun p => p.2)
    else
      let events := sortEvents (iter_events start stop)
      Except.ok
        { s with
          lessons := s.lessons ++ events.enum.map (fun ie =>
            { id := s.nextLessonId + ie.1
              day_of_week := ie.2.2.1
              time_slot := ie.2.2.2
              grade_level := GRADE_BY_SLOT ie.2.2.2
              coach_id := (coaches.getD (ie.1 % coaches.length) ⟨0⟩).id
              max_capacity := 4
              lesson_date := ie.2.1 })
          nextLessonId := s.nextLessonId + events.length }

/-- One event of the loop in `integrate_new_coach`.  When exactly one lesson
matches the event's (date, slot), the Python code mutates that single queried
row; rewriting every matching list entry is the same update because exactly
one entry matches in that branch. -/
def integrateStep (idByIndex : List Nat) (st : State) (ie : Nat × Event) : State :=
  let desired_id := idByIndex.getD (ie.1 % idByIndex.length) 0
  let dt := ie.2.1
  let day := ie.2.2.1
  let slot := ie.2.2.2
  match st.lessons.filter
      (fun l => decide (l.lesson_date = dt) && decide (l.time_slot = slot)) with
  | [] =>
    { st with
      lessons := st.lessons ++
        [{ id := st.nextLessonId
           day_of_week := day
           time_slot := slot
           grade_level := GRADE_BY_SLOT slot
           coach_id := desired_id
           max_capacity := 4
           lesson_date := dt }]
      nextLessonId := st.nextLessonId + 1 }
  | [l] =>
    if l.coach_id = desired_id then st
    else if (st.bookings.filter fun b => decide (b.lesson_id = l.id)).length = 0 then
      { st with
        lessons := st.lessons.map fun x =>
          if decide (x.lesson_date = dt) && decide (x.time_slot = slot) then
            { x with coach_id := desired_id }
          else x }
    else st
  | _ :: _ :: _ => st

/-- Function `integrate_new_coach` from scheduler.py.  The `coach_id` argument is the
onboarding trigger; as in the source, the body uses only the full roster. -/
def integrate_new_coach (s : State) (coach_id : Nat) (start : Nat) (weeks : Nat) : State :=
  let stop := start + 7 * weeks
  let coaches := sortCoaches s.coaches
  if coaches.isEmpty then s
  else
    let idByIndex := coaches.map (fun c => c.id)
    let events := sortEvents (iter_events start stop)
    events.enum.foldl (integrateStep idByIndex) s

/-- Method `Learner.can_book_grade` from models.py. -/
def can_book_grade (learner : Learner) (lesson_grade : Nat) : Bool :=
  decide (lesson_grade = learner.current_grade)
    || decide (lesson_grade = learner.current_grade + 1)

/-- Method `Lesson.get_available_spaces` from models.py:
`max_capacity - count(bookings with this lesson's id and status 'booked')`. -/
def get_available_spaces (s : State) (l : Lesson) : Int :=
  (l.max_capacity : Int) -
    ((s.bookings.filter fun b =>
        decide (b.lesson_id = l.id) && decide (b.booking_status = "booked")).length : Int)

/-- Method `Lesson.is_full` from models.py. -/
def is_full (s : State) (l : Lesson) : Bool :=
  decide (get_available_spaces s l ≤ 0)

/-- Outcomes of the `book_lesson` view (portal.py); each corresponds to one
early return / flash category of the route. -/
inductive BookOutcome
  | notLearner
  | notFound
  | eligibilityError
  | capacityError
  | alreadyBooked
  | integrityError
  | booked
deriving DecidableEq

/-- View `book_lesson` from portal.py (store-relevant logic; rendering dropped).
`role`/`user` are the authenticated session identity.  A prior booking with
status `cancelled` or `attended` is deleted first; if a row for the same
(learner, lesson) still remains after that step (a prior `missed` row), the
insert violates the `unique_learner_lesson` constraint and the transaction
fails, modelled by `integrityError`. -/
def book_lesson (s : State) (role : String) (user : Learner) (lesson_id : Nat) :
    BookOutcome × State :=
  if role ≠ "learner" then (.notLearner, s)
  else
    match s.lessons.find? (fun l => decide (l.id = lesson_id)) with
    | none => (.notFound, s)
    | some lesson =>
      if ¬ can_book_grade user lesson.grade_level then (.eligibilityError, s)
      else if is_full s lesson then (.capacityError, s)
      else
        let newBooking : Booking :=
          { id := s.nextBookingId
            learner_id := user.id
            lesson_id := lesson.id
            booking_status := "booked"
            attended := false
            grade_updated := false }
        match s.bookings.find?
            (fun b => decide (b.learner_id = user.id) && decide (b.lesson_id = lesson.id)) with
        | some existing =>
          if existing.booking_status = "booked" then (.alreadyBooked, s)
          else
            let s1 :=
              if existing.booking_status = "cancelled" ∨ existing.booking_status = "attended"
              then { s with bookings := s.bookings.filter fun b => ! decide (b.id = existing.id) }
              else s
            if s1.bookings.any
                (fun b => decide (b.learner_id = user.id) && decide (b.lesson_id = lesson.id)) then
              (.integrityError, s)
            else
              (.booked,
               { s1 with
                  bookings := s1.bookings ++ [newBooking]
                  nextBookingId := s1.nextBookingId + 1 })
        | none =>
          (.booked,
           { s with
              bookings := s.bookings ++ [newBooking]
              nextBookingId := s.nextBookingId + 1 })

/-- Outcomes of the `cancel_booking` view (portal.py).  `lookupError` models a
crash on a dangling lesson reference or unknown slot. -/
inductive CancelOutcome
  | notFound
  | notAllowed
  | lookupError
  | windowError
  | cancelled
deriving DecidableEq

/-- View `cancel_booking` from portal.py.  `now` is `datetime.utcnow()` in minutes;
`start_dt` is `datetime.combine(lesson_date, start_time)`.  The guard is
`start_dt - now < timedelta(hours=24)`. -/
def cancel_booking (s : State) (role : String) (user_id : Nat) (booking_id : Nat)
    (now : Int) : CancelOutcome × State :=
  match s.bookings.find? (fun b => decide (b.id = booking_id)) with
  | none => (.notFound, s)
  | some b =>
    if role ≠ "learner" ∨ b.learner_id ≠ user_id then (.notAllowed, s)
    else
      match s.lessons.find? (fun l => decide (l.id = b.lesson_id)) with
      | none => (.lookupError, s)
      | some lesson =>
        match TIME_SLOT_RANGES lesson.time_slot with
        | none => (.lookupError, s)
        | some range =>
          let start_dt : Int := 1440 * (lesson.lesson_date : Int) + (range.1 : Int)
          if start_dt - now < 24 * 60 then (.windowError, s)
          else
            (.cancelled,
             { s with
                bookings := s.bookings.map fun x =>
                  if x.id = booking_id then { x with booking_status := "cancelled" } else x })

/-- Method `Booking.mark_attended` from models.py.  `none` models the crash on a
dangling booking/lesson/learner reference.  The promotion guard reads the
booking's `grade_updated` flag before it is rewritten, as in the source. -/
def mark_attended (s : State) (booking_id : Nat) : Option State :=
  match s.bookings.find? (fun b => decide (b.id = booking_id)) with
  | none => none
  | some b =>
    match s.lessons.find? (fun l => decide (l.id = b.lesson_id)),
        s.learners.find? (fun lr => decide (lr.id = b.learner_id)) with
    | some lesson, some learner =>
      let promote := decide (learner.current_grade < lesson.grade_level) && ! b.grade_updated
      some
        { s with
          bookings := s.bookings.map fun x =>
            if x.id = booking_id then
              { x with
                attended := true
                booking_status := "attended"
                grade_updated := x.grade_updated || promote }
            else x
          learners :=
            if promote then
              s.learners.map fun x =>
                if x.id = learner.id then { x with current_grade := lesson.grade_level } else x
            else s.learners }
    | _, _ => none

/-- The process-start maintenance sweep in main.py: every booking with status
`booked` whose (joined) lesson is dated before today becomes `missed`. -/
def sweep_missed (s : State) (today : Nat) : State :=
  { s with
    bookings := s.bookings.map fun b =>
      if decide (b.booking_status = "booked")
          && s.lessons.any (fun l => decide (l.id = b.lesson_id) && decide (l.lesson_date < today)) then
        { b with booking_status := "missed" }
      else b }

/-! ### Proof-layer predicates and concrete sample stores -/

/-- Concrete store with a single coach and empty tables, used by witnesses. -/
def oneCoachState : State :=
  { coaches := [⟨1⟩]
    learners := []
    lessons := []
    templates := []
    bookings := []
    nextLessonId := 0
    nextBookingId := 0 }

/-- Key distinctness demanded by the `uq_lesson_date_time_coach` unique
constraint: the two lessons differ somewhere in (date, slot, coach). -/
def lessonKeyNe (a b : Lesson) : Prop :=
  ¬(a.lesson_date = b.lesson_date ∧ a.time_slot = b.time_slot ∧ a.coach_id = b.coach_id)

instance : DecidableRel lessonKeyNe := fun a b => by
  unfold lessonKeyNe; infer_instance

/-- Concrete store with one coach and one Monday 4-5pm template, used by
witnesses. -/
def templateState : State :=
  { coaches := [⟨1⟩]
    learners := []
    lessons := []
    templates := [⟨1, "Monday", "4-5pm", 2, 1⟩]
    bookings := []
    nextLessonId := 0
    nextBookingId := 0 }

/-- Concrete store with one coach and one lesson inside the window `[0, 7)`. -/
def lessonInWindowState : State :=
  { coaches := [⟨1⟩]
    learners := []
    lessons := [⟨0, "Monday", "4-5pm", 1, 1, 4, 0⟩]
    templates := []
    bookings := []
    nextLessonId := 1
    nextBookingId := 0 }

/-- Concrete store with no coaches at all. -/
def noCoachState : State :=
  { coaches := []
    learners := []
    lessons := []
    templates := []
    bookings := []
    nextLessonId := 0
    nextBookingId := 0 }

/-- The parts of a lesson `integrate_new_coach` may never change: everything
except the coach reference. -/
def lessonFrame (orig cur : Lesson) : Prop :=
  cur.id = orig.id ∧ cur.day_of_week = orig.day_of_week ∧
  cur.time_slot = orig.time_slot ∧ cur.grade_level = orig.grade_level ∧
  cur.max_capacity = orig.max_capacity ∧ cur.lesson_date = orig.lesson_date

/-- Invariant carried through the event loop of `integrate_new_coach`: all
non-lesson tables are untouched, every pre-existing lesson is still at its
position with only the coach possibly rewritten, the coach is rewritten only
if the lesson had no booking records at all, and a lesson sharing its
(date, slot) with another pre-existing lesson is entirely untouched. -/
def IntegrateInv (s0 st : State) : Prop :=
  st.bookings = s0.bookings ∧ st.coaches = s0.coaches ∧ st.learners = s0.learners ∧
  st.templates = s0.templates ∧ st.nextBookingId = s0.nextBookingId ∧
  ∀ i l0, s0.lessons[i]? = some l0 →
    ∃ l1, st.lessons[i]? = some l1 ∧ lessonFrame l0 l1 ∧
      (l1.coach_id ≠ l0.coach_id →
        s0.bookings.filter (fun b => decide (b.lesson_id = l0.id)) = []) ∧
      ((∃ (j : Nat) (l0' : Lesson), j ≠ i ∧ s0.lessons[j]? = some l0' ∧
          l0'.lesson_date = l0.lesson_date ∧ l0'.time_slot = l0.time_slot) → l1 = l0)

/-- Concrete store: two coaches, a Monday 4-5pm lesson held by coach 2 with
one active booking.  The round-robin target for that event is coach 1, so
only the booking protects the assignment. -/
def bookedLessonState : State :=
  { coaches := [⟨1⟩, ⟨2⟩]
    learners := [⟨1, 1⟩]
    lessons := [⟨5, "Monday", "4-5pm", 1, 2, 4, 0⟩]
    templates := []
    bookings := [⟨1, 1, 5, "booked", false, false⟩]
    nextLessonId := 6
    nextBookingId := 2 }

/-- Concrete store: like `bookedLessonState` but the only booking on the
lesson is cancelled; the lesson is still never reassigned. -/
def cancelledLessonState : State :=
  { coaches := [⟨1⟩, ⟨2⟩]
    learners := [⟨1, 1⟩]
    lessons := [⟨5, "Monday", "4-5pm", 1, 2, 4, 0⟩]
    templates := []
    bookings := [⟨1, 1, 5, "cancelled", false, false⟩]
    nextLessonId := 6
    nextBookingId := 2 }

/-- The per-event postcondition of the `integrate_new_coach` loop: the event's
(date, slot) has at least one lesson, and if it has exactly one then that
lesson either already carries the round-robin coach or it has booking
records. -/
def integratedAt (idByIndex : List Nat) (st : State) (ie : Nat × Event) : Prop :=
  (st.lessons.filter fun l =>
    decide (l.lesson_date = ie.2.1) && decide (l.time_slot = ie.2.2.2)) ≠ [] ∧
  ∀ l, (st.lessons.filter fun l =>
      decide (l.lesson_date = ie.2.1) && decide (l.time_slot = ie.2.2.2)) = [l] →
    l.coach_id = idByIndex.getD (ie.1 % idByIndex.length) 0 ∨
    (st.bookings.filter fun b => decide (b.lesson_id = l.id)) ≠ []

/-- Concrete store: one lesson of capacity 4 with four booked rows, and a
fifth learner who cannot get in until one row is cancelled. -/
def fullLessonState : State :=
  { coaches := [⟨1⟩]
    learners := [⟨1, 1⟩, ⟨2, 1⟩, ⟨3, 1⟩, ⟨4, 1⟩, ⟨5, 1⟩]
    lessons := [⟨5, "Monday", "4-5pm", 1, 1, 4, 0⟩]
    templates := []
    bookings := [⟨1, 1, 5, "booked", false, false⟩, ⟨2, 2, 5, "booked", false, false⟩,
      ⟨3, 3, 5, "booked", false, false⟩, ⟨4, 4, 5, "booked", false, false⟩]
    nextLessonId := 6
    nextBookingId := 5 }

/-- Concrete store for the cancellation-window witness: a booked lesson on
day 10 at 4-5pm, so the lesson starts at minute 15360. -/
def cancelWindowState : State :=
  { coaches := [⟨1⟩]
    learners := [⟨1, 1⟩]
    lessons := [⟨5, "Monday", "4-5pm", 1, 1, 4, 10⟩]
    templates := []
    bookings := [⟨1, 1, 5, "booked", false, false⟩]
    nextLessonId := 6
    nextBookingId := 2 }

/-- Concrete store for the promotion witness: a learner at grade 0 with a
booked grade-2 lesson. -/
def promotionState : State :=
  { coaches := [⟨1⟩]
    learners := [⟨1, 0⟩]
    lessons := [⟨5, "Monday", "5-6pm", 2, 1, 4, 0⟩]
    templates := []
    bookings := [⟨1, 1, 5, "booked", false, false⟩]
    nextLessonId := 6
    nextBookingId := 2 }

/-- Concrete store with a cancelled booking on a future lesson, used to refute
the claimed status monotonicity. -/
def cancelledBookingState : State :=
  { coaches := [⟨1⟩]
    learners := [⟨1, 0⟩]
    lessons := [⟨5, "Monday", "4-5pm", 1, 1, 4, 0⟩]
    templates := []
    bookings := [⟨1, 1, 5, "cancelled", false, false⟩]
    nextLessonId := 6
    nextBookingId := 2 }

/-! ### Order facts about the Python string comparison -/

theorem char_toNat_inj {a b : Char} (h : a.toNat = b.toNat) : a = b := by
  apply Char.ext
  apply UInt32.ext
  simpa [Char.toNat, UInt32.toNat] using h

theorem pyCharsLt_trans (as : List Char) : ∀ (bs cs : List Char),
    pyCharsLt as bs = true → pyCharsLt bs cs = true → pyCharsLt as cs = true := by
  induction as with
  | nil =>
    intro bs cs h1 h2
    cases bs with
    | nil => simpa [pyCharsLt] using h1
    | cons b bs =>
      cases cs with
      | nil => simpa [pyCharsLt] using h2
      | cons c cs => simp [pyCharsLt]
  | cons a as ih =>
    intro bs cs h1 h2
    cases bs with
    | nil => simp [pyCharsLt] at h1
    | cons b bs =>
      cases cs with
      | nil => simp [pyCharsLt] at h2
      | cons c cs =>
        simp only [pyCharsLt] at h1 h2 ⊢
        by_cases hab : a = b
        · subst hab
          by_cases hbc : a = c
          · subst hbc
            simp only [if_pos rfl] at h1 h2 ⊢
            exact ih _ _ h1 h2
          · simp only [if_neg hbc] at h2 ⊢
            exact h2
        · simp only [if_neg hab] at h1
          by_cases hbc : b = c
          · subst hbc
            simp only [if_neg hab]
            exact h1
          · simp only [if_neg hbc] at h2
            have hac : a ≠ c := by
              intro h
              subst h
              simp only [decide_eq_true_eq] at h1 h2
              omega
            simp only [if_neg hac, decide_eq_true_eq] at h1 h2 ⊢
            omega

theorem pyCharsLt_connex (as : List Char) : ∀ (bs : List Char),
    pyCharsLt as bs = false → pyCharsLt bs as = false → as = bs := by
  induction as with
  | nil =>
    intro bs h1 _
    cases bs with
    | nil => rfl
    | cons b bs => simp [pyCharsLt] at h1
  | cons a as ih =>
    intro bs h1 h2
    cases bs with
    | nil => simp [pyCharsLt] at h2
    | cons b bs =>
      simp only [pyCharsLt] at h1 h2
      by_cases hab : a = b
      · subst hab
        simp only [if_pos rfl] at h1 h2
        rw [ih bs h1 h2]
      · simp only [if_neg hab, decide_eq_false_iff_not, Nat.not_lt] at h1
        simp only [if_neg (Ne.symm hab), decide_eq_false_iff_not, Nat.not_lt] at h2
        exact absurd (char_toNat_inj (by omega)) hab

theorem pyCharsLt_irrefl (as : List Char) : pyCharsLt as as = false := by
  induction as with
  | nil => rfl
  | cons a as ih => simpa [pyCharsLt] using ih

theorem pyStrLt_trans {a b c : String} (h1 : pyStrLt a b = true)
    (h2 : pyStrLt b c = true) : pyStrLt a c = true :=
  pyCharsLt_trans a.data b.data c.data h1 h2

theorem pyStrLt_connex {a b : String} (h1 : pyStrLt a b = false)
    (h2 : pyStrLt b a = false) : a = b :=
  String.ext (pyCharsLt_connex a.data b.data h1 h2)

theorem pyStrLt_irrefl (a : String) : pyStrLt a a = false :=
  pyCharsLt_irrefl a.data

theorem pyStrLe_trans {a b c : String} (h1 : pyStrLe a b = true)
    (h2 : pyStrLe b c = true) : pyStrLe a c = true := by
  simp only [pyStrLe, Bool.or_eq_true, decide_eq_true_eq] at h1 h2 ⊢
  rcases h1 with h1 | rfl
  · rcases h2 with h2 | rfl
    · exact Or.inl (pyStrLt_trans h1 h2)
    · exact Or.inl h1
  · exact h2

theorem pyStrLe_total (a b : String) : pyStrLe a b = true ∨ pyStrLe b a = true := by
  simp only [pyStrLe, Bool.or_eq_true, decide_eq_true_eq]
  by_cases h1 : pyStrLt a b = true
  · exact Or.inl (Or.inl h1)
  · by_cases h2 : pyStrLt b a = true
    · exact Or.inr (Or.inl h2)
    · exact Or.inl (Or.inr (pyStrLt_connex (by simpa using h1) (by simpa using h2)))

theorem pyStrLt_of_le_of_ne {a b : String} (h1 : pyStrLe a b = true) (h2 : a ≠ b) :
    pyStrLt a b = true := by
  simp only [pyStrLe, Bool.or_eq_true, decide_eq_true_eq] at h1
  tauto

instance : IsTrans Event eventKeyLe := by
  constructor
  intro a b c hab hbc
  rcases hab with hab | ⟨hab, hab2⟩
  · rcases hbc with hbc | ⟨hbc, _⟩
    · exact Or.inl (Nat.lt_trans hab hbc)
    · exact Or.inl (hbc ▸ hab)
  · rcases hbc with hbc | ⟨hbc, hbc2⟩
    · exact Or.inl (hab ▸ hbc)
    · exact Or.inr ⟨hab.trans hbc, pyStrLe_trans hab2 hbc2⟩

instance : IsTotal Event eventKeyLe := by
  constructor
  intro a b
  rcases Nat.lt_trichotomy a.1 b.1 with h | h | h
  · exact Or.inl (Or.inl h)
  · rcases pyStrLe_total a.2.2 b.2.2 with hs | hs
    · exact Or.inl (Or.inr ⟨h, hs⟩)
    · exact Or.inr (Or.inr ⟨h.symm, hs⟩)
  · exact Or.inr (Or.inl h)

/-! ### The while-loop date enumeration -/

theorem whileDatesAux_congr (f₁ : Nat) : ∀ (f₂ current stop : Nat),
    stop - current ≤ f₁ → stop - current ≤ f₂ →
    whileDatesAux f₁ current stop = whileDatesAux f₂ current stop := by
  induction f₁ with
  | zero =>
    intro f₂ current stop h1 _
    cases f₂ with
    | zero => rfl
    | succ n => simp [whileDatesAux, Nat.not_lt.mpr (by omega : stop ≤ current)]
  | succ m ih =>
    intro f₂ current stop h1 h2
    cases f₂ with
    | zero => simp [whileDatesAux, Nat.not_lt.mpr (by omega : stop ≤ current)]
    | succ n =>
      simp only [whileDatesAux]
      by_cases h : current < stop
      · simp only [if_pos h]
        rw [ih n (current + 7) stop (by omega) (by omega)]
      · simp [if_neg h]

theorem whileDates_eq (current stop : Nat) :
    whileDates current stop =
      if current < stop then current :: whileDates (current + 7) stop else [] := by
  unfold whileDates
  by_cases h : current < stop
  · have h1 : stop - current = (stop - current - 1) + 1 := by omega
    rw [h1]
    simp only [whileDatesAux, if_pos h]
    rw [whileDatesAux_congr (stop - current - 1) (stop - (current + 7)) (current + 7) stop
      (by omega) le_rfl]
  · have h1 : stop - current = 0 := by omega
    rw [h1]
    simp [whileDatesAux, if_neg h]

theorem mem_whileDatesAux (fuel : Nat) : ∀ (current x stop : Nat),
    stop - current ≤ fuel →
    (x ∈ whileDatesAux fuel current stop ↔ ∃ k, x = current + 7 * k ∧ x < stop) := by
  induction fuel with
  | zero =>
    intro current x stop h
    simp only [whileDatesAux, List.not_mem_nil, false_iff]
    rintro ⟨k, rfl, hlt⟩
    omega
  | succ m ih =>
    intro current x stop h
    simp only [whileDatesAux]
    by_cases hc : current < stop
    · simp only [if_pos hc, List.mem_cons, ih (current + 7) x stop (by omega)]
      constructor
      · rintro (rfl | ⟨k, rfl, hlt⟩)
        · exact ⟨0, by omega, hc⟩
        · exact ⟨k + 1, by omega, hlt⟩
      · rintro ⟨k, rfl, hlt⟩
        cases k with
        | zero => exact Or.inl (by omega)
        | succ k2 => exact Or.inr ⟨k2, by omega, hlt⟩
    · simp only [if_neg hc, List.not_mem_nil, false_iff]
      rintro ⟨k, rfl, hlt⟩
      omega

theorem mem_whileDates {x current stop : Nat} :
    x ∈ whileDates current stop ↔ ∃ k, x = current + 7 * k ∧ x < stop :=
  mem_whileDatesAux (stop - current) current x stop le_rfl

theorem whileDatesAux_lower (fuel : Nat) : ∀ (current stop x : Nat),
    x ∈ whileDatesAux fuel current stop → current ≤ x := by
  induction fuel with
  | zero => intro current stop x h; simp [whileDatesAux] at h
  | succ m ih =>
    intro current stop x h
    simp only [whileDatesAux] at h
    by_cases hc : current < stop
    · simp only [if_pos hc, List.mem_cons] at h
      rcases h with rfl | h
      · exact le_rfl
      · have := ih (current + 7) stop x h
        omega
    · simp [if_neg hc] at h

theorem whileDatesAux_pairwise_lt (fuel : Nat) : ∀ (current stop : Nat),
    (whileDatesAux fuel current stop).Pairwise (· < ·) := by
  induction fuel with
  | zero => intro current stop; simp [whileDatesAux]
  | succ m ih =>
    intro current stop
    simp only [whileDatesAux]
    by_cases hc : current < stop
    · simp only [if_pos hc]
      refine List.Pairwise.cons ?_ (ih (current + 7) stop)
      intro y hy
      have := whileDatesAux_lower m (current + 7) stop y hy
      omega
    · simp [if_neg hc]

theorem whileDates_pairwise_lt (current stop : Nat) :
    (whileDates current stop).Pairwise (· < ·) :=
  whileDatesAux_pairwise_lt _ current stop

/-! ### The event enumeration -/

theorem WEEKDAY_INDEX_lt (day : String) : WEEKDAY_INDEX day < 7 := by
  unfold WEEKDAY_INDEX
  repeat' split
  all_goals omega

theorem next_on_or_after_ge (d : Nat) (day : String) : d ≤ next_on_or_after d day :=
  Nat.le_add_right _ _

theorem next_on_or_after_lt (d : Nat) (day : String) : next_on_or_after d day < d + 7 := by
  unfold next_on_or_after
  omega

theorem next_on_or_after_mod (d : Nat) (day : String) :
    next_on_or_after d day % 7 = WEEKDAY_INDEX day := by
  have h := WEEKDAY_INDEX_lt day
  unfold next_on_or_after
  omega

theorem mem_dayEvents {e : Event} {start stop : Nat} {day : String} :
    e ∈ dayEvents start stop day ↔
      e.2.1 = day ∧ e.2.2 ∈ TIME_SLOTS_BY_DAY day ∧
        start ≤ e.1 ∧ e.1 < stop ∧ e.1 % 7 = WEEKDAY_INDEX day := by
  unfold dayEvents
  simp only [List.mem_flatMap, List.mem_map]
  constructor
  · rintro ⟨dt, hdt, slot, hslot, rfl⟩
    rw [mem_whileDates] at hdt
    obtain ⟨k, rfl, hlt⟩ := hdt
    have h1 := next_on_or_after_ge start day
    have h2 := next_on_or_after_mod start day
    exact ⟨rfl, hslot, by omega, hlt, by omega⟩
  · rintro ⟨hday, hslot, hge, hlt, hmod⟩
    refine ⟨e.1, ?_, e.2.2, hslot, ?_⟩
    · rw [mem_whileDates]
      have h1 := next_on_or_after_ge start day
      have h2 := next_on_or_after_mod start day
      have h3 := next_on_or_after_lt start day
      have h4 : next_on_or_after start day ≤ e.1 := by omega
      refine ⟨(e.1 - next_on_or_after start day) / 7, by omega, hlt⟩
    · rw [← hday]

theorem mem_iter_events {e : Event} {start stop : Nat} :
    e ∈ iter_events start stop ↔
      e.2.1 ∈ ALLOWED_DAYS ∧ e.2.2 ∈ TIME_SLOTS_BY_DAY e.2.1 ∧
        start ≤ e.1 ∧ e.1 < stop ∧ e.1 % 7 = WEEKDAY_INDEX e.2.1 := by
  unfold iter_events
  simp only [List.mem_flatMap]
  constructor
  · rintro ⟨day, hday, hmem⟩
    obtain ⟨rfl, h⟩ := mem_dayEvents.mp hmem
    exact ⟨hday, h⟩
  · rintro ⟨hday, h⟩
    exact ⟨e.2.1, hday, mem_dayEvents.mpr ⟨rfl, h⟩⟩

theorem pairwise_flatMap_of {α β : Type _} {R : β → β → Prop} (l : List α) (f : α → List β)
    (hin : ∀ a ∈ l, (f a).Pairwise R)
    (hcross : l.Pairwise fun a b => ∀ x ∈ f a, ∀ y ∈ f b, R x y) :
    (l.flatMap f).Pairwise R := by
  have hdef : l.flatMap f = (l.map f).flatten := by simp [List.flatMap_def]
  rw [hdef, List.pairwise_flatten]
  constructor
  · intro l2 hl2
    obtain ⟨a, ha, rfl⟩ := List.mem_map.mp hl2
    exact hin a ha
  · rw [List.pairwise_map]
    exact hcross

theorem slots_pairwise_ne (day : String) :
    (TIME_SLOTS_BY_DAY day).Pairwise (fun a b => a ≠ b) := by
  unfold TIME_SLOTS_BY_DAY
  repeat' split
  all_goals decide

theorem allowed_days_idx_ne :
    ALLOWED_DAYS.Pairwise (fun d1 d2 => WEEKDAY_INDEX d1 ≠ WEEKDAY_INDEX d2) := by
  decide

theorem day_eq_of_idx_eq {d1 d2 : String} (h1 : d1 ∈ ALLOWED_DAYS) (h2 : d2 ∈ ALLOWED_DAYS)
    (h : WEEKDAY_INDEX d1 = WEEKDAY_INDEX d2) : d1 = d2 := by
  have hall : ∀ x ∈ ALLOWED_DAYS, ∀ y ∈ ALLOWED_DAYS,
      WEEKDAY_INDEX x = WEEKDAY_INDEX y → x = y := by decide
  exact hall d1 h1 d2 h2 h

theorem slot_lt_indexOf : ∀ day ∈ ALLOWED_DAYS, ∀ s1 ∈ TIME_SLOTS_BY_DAY day,
    ∀ s2 ∈ TIME_SLOTS_BY_DAY day, pyStrLt s1 s2 = true →
    (TIME_SLOTS_BY_DAY day).indexOf s1 < (TIME_SLOTS_BY_DAY day).indexOf s2 := by
  decide

theorem dayEvents_pairwise_keyNe (start stop : Nat) (day : String) :
    (dayEvents start stop day).Pairwise fun a b => ¬(a.1 = b.1 ∧ a.2.2 = b.2.2) := by
  unfold dayEvents
  apply pairwise_flatMap_of
  · intro dt _
    rw [List.pairwise_map]
    apply (slots_pairwise_ne day).imp
    intro a b hne hk
    exact hne hk.2
  · apply (whileDates_pairwise_lt _ _).imp
    intro dt1 dt2 hlt x hx y hy hk
    obtain ⟨s1, _, rfl⟩ := List.mem_map.mp hx
    obtain ⟨s2, _, rfl⟩ := List.mem_map.mp hy
    exact absurd hk.1 (by omega)

theorem iter_events_pairwise_keyNe (start stop : Nat) :
    (iter_events start stop).Pairwise fun a b => ¬(a.1 = b.1 ∧ a.2.2 = b.2.2) := by
  unfold iter_events
  apply pairwise_flatMap_of
  · intro day _
    exact dayEvents_pairwise_keyNe start stop day
  · apply allowed_days_idx_ne.imp
    intro d1 d2 hne x hx y hy hk
    have h1 := (mem_dayEvents.mp hx).2.2.2.2
    have h2 := (mem_dayEvents.mp hy).2.2.2.2
    exact hne (by rw [← h1, ← h2, hk.1])

/-! ### The sorted event list -/

theorem sortEvents_perm (es : List Event) : (sortEvents es).Perm es :=
  List.perm_insertionSort _ _

theorem sortEvents_sorted (es : List Event) : (sortEvents es).Pairwise eventKeyLe :=
  List.sorted_insertionSort _ _

theorem mem_sortEvents {e : Event} {es : List Event} : e ∈ sortEvents es ↔ e ∈ es :=
  (sortEvents_perm es).mem_iff

theorem sortEvents_iter_pairwise_keyNe (start stop : Nat) :
    (sortEvents (iter_events start stop)).Pairwise fun a b => ¬(a.1 = b.1 ∧ a.2.2 = b.2.2) := by
  refine ((sortEvents_perm _).pairwise_iff ?_).mpr (iter_events_pairwise_keyNe start stop)
  intro x y h hk
  exact h ⟨hk.1.symm, hk.2.symm⟩

theorem sortEvents_iter_pairwise_strict (start stop : Nat) :
    (sortEvents (iter_events start stop)).Pairwise fun a b =>
      a.1 < b.1 ∨ (a.1 = b.1 ∧
        (TIME_SLOTS_BY_DAY a.2.1).indexOf a.2.2 < (TIME_SLOTS_BY_DAY b.2.1).indexOf b.2.2) := by
  have hs : (sortEvents (iter_events start stop)).Pairwise eventKeyLe := sortEvents_sorted _
  have hn := sortEvents_iter_pairwise_keyNe start stop
  have hb := hs.and hn
  apply hb.imp_of_mem
  intro a b ha hbm hab
  obtain ⟨hle, hne⟩ := hab
  rcases hle with hlt | hle2
  · exact Or.inl hlt
  · obtain ⟨heq, hsle⟩ := hle2
    refine Or.inr ⟨heq, ?_⟩
    have hsne : a.2.2 ≠ b.2.2 := fun h => hne ⟨heq, h⟩
    have hslt := pyStrLt_of_le_of_ne hsle hsne
    have hma := mem_iter_events.mp (mem_sortEvents.mp ha)
    have hmb := mem_iter_events.mp (mem_sortEvents.mp hbm)
    have hdq : a.2.1 = b.2.1 :=
      day_eq_of_idx_eq hma.1 hmb.1 (by rw [← hma.2.2.2.2, ← hmb.2.2.2.2, heq])
    rw [← hdq]
    exact slot_lt_indexOf a.2.1 hma.1 a.2.2 hma.2.1 b.2.2 (hdq ▸ hmb.2.1) hslt

/-! ### Branch lemmas for ensure_schedule -/

theorem sortCoaches_perm (cs : List Coach) : (sortCoaches cs).Perm cs :=
  List.perm_insertionSort _ _

theorem sortCoaches_sorted (cs : List Coach) : (sortCoaches cs).Pairwise coachLe :=
  List.sorted_insertionSort _ _

theorem sortCoaches_eq_nil {cs : List Coach} (h : sortCoaches cs = []) : cs = [] := by
  have hp := sortCoaches_perm cs
  rw [h] at hp
  exact hp.symm.eq_nil

theorem ensure_schedule_skip_window {s : State} {start weeks : Nat}
    (h : (s.lessons.any fun l =>
      decide (start ≤ l.lesson_date) && decide (l.lesson_date < start + 7 * weeks)) = true) :
    ensure_schedule s start weeks = Except.ok s := by
  unfold ensure_schedule
  simp [h]

theorem ensure_schedule_skip_nocoach {s : State} {start weeks : Nat} (h : s.coaches = []) :
    ensure_schedule s start weeks = Except.ok s := by
  unfold ensure_schedule
  have hs : sortCoaches s.coaches = [] := by rw [h]; rfl
  by_cases hany : (s.lessons.any fun l =>
      decide (start ≤ l.lesson_date) && decide (l.lesson_date < start + 7 * weeks)) = true
  · simp [hany]
  · simp [hany, hs]

theorem ensure_schedule_template_eq {s : State} {start weeks : Nat}
    (hwin : (s.lessons.any fun l =>
      decide (start ≤ l.lesson_date) && decide (l.lesson_date < start + 7 * weeks)) = false)
    (hc : (sortCoaches s.coaches).isEmpty = false)
    (ht : 0 < s.templates.length) :
    ensure_schedule s start weeks = (generate_for_weeks s start weeks none).map (fun p => p.2) := by
  unfold ensure_schedule
  simp [hwin, hc, ht]

theorem ensure_schedule_even_eq {s : State} {start weeks : Nat}
    (hwin : (s.lessons.any fun l =>
      decide (start ≤ l.lesson_date) && decide (l.lesson_date < start + 7 * weeks)) = false)
    (hc : (sortCoaches s.coaches).isEmpty = false)
    (ht : s.templates.length = 0) :
    ensure_schedule s start weeks = Except.ok
      { s with
        lessons := s.lessons ++
          (sortEvents (iter_events start (start + 7 * weeks))).enum.map (fun ie =>
            { id := s.nextLessonId + ie.1
              day_of_week := ie.2.2.1
              time_slot := ie.2.2.2
              grade_level := GRADE_BY_SLOT ie.2.2.2
              coach_id := ((sortCoaches s.coaches).getD
                (ie.1 % (sortCoaches s.coaches).length) ⟨0⟩).id
              max_capacity := 4
              lesson_date := ie.2.1 })
        nextLessonId :=
          s.nextLessonId + (sortEvents (iter_events start (start + 7 * weeks))).length } := by
  unfold ensure_schedule
  simp [hwin, hc, ht]

/-- C1: when the window `[start, start + weeks*7)` holds no lesson, at least one
coach exists and no templates exist, `ensure_schedule` appends exactly one
lesson per (date, day, slot) event of the window — the event list enumerates
exactly the window's events, is sorted by (date, slot-declaration-order within
the day), and the lesson for event `i` carries the coach at position
`i mod N` of the id-ascending coach roster and the fixed slot-to-grade
lookup's grade. -/
theorem C1_even_distribution_round_robin (s : State) (start weeks : Nat)
    (hwin : ∀ l ∈ s.lessons, ¬(start ≤ l.lesson_date ∧ l.lesson_date < start + 7 * weeks))
    (hcoach : s.coaches ≠ []) (htmpl : s.templates = []) :
    ∃ s2, ensure_schedule s start weeks = Except.ok s2 ∧
      ((sortCoaches s.coaches).Pairwise fun a b => a.id ≤ b.id) ∧
      (sortCoaches s.coaches).Perm s.coaches ∧
      (∀ e : Event, e ∈ sortEvents (iter_events start (start + 7 * weeks)) ↔
        (e.2.1 ∈ ALLOWED_DAYS ∧ e.2.2 ∈ TIME_SLOTS_BY_DAY e.2.1 ∧
          start ≤ e.1 ∧ e.1 < start + 7 * weeks ∧ e.1 % 7 = WEEKDAY_INDEX e.2.1)) ∧
      ((sortEvents (iter_events start (start + 7 * weeks))).Pairwise fun a b =>
        a.1 < b.1 ∨ (a.1 = b.1 ∧
          (TIME_SLOTS_BY_DAY a.2.1).indexOf a.2.2 < (TIME_SLOTS_BY_DAY b.2.1).indexOf b.2.2)) ∧
      ∃ created : List Lesson, s2.lessons = s.lessons ++ created ∧
        created.length = (sortEvents (iter_events start (start + 7 * weeks))).length ∧
        ∀ (i : Nat) (e : Event), (sortEvents (iter_events start (start + 7 * weeks)))[i]? = some e →
          created[i]? = some
            { id := s.nextLessonId + i
              day_of_week := e.2.1
              time_slot := e.2.2
              grade_level := GRADE_BY_SLOT e.2.2
              coach_id := ((sortCoaches s.coaches).getD
                (i % (sortCoaches s.coaches).length) ⟨0⟩).id
              max_capacity := 4
              lesson_date := e.1 } := by
  have hwinb : (s.lessons.any fun l =>
      decide (start ≤ l.lesson_date) && decide (l.lesson_date < start + 7 * weeks)) = false := by
    rw [List.any_eq_false]
    intro l hl
    simp only [Bool.and_eq_true, decide_eq_true_eq, not_and]
    intro h1 h2
    exact hwin l hl ⟨h1, h2⟩
  have hcb : (sortCoaches s.coaches).isEmpty = false := by
    cases hsc : (sortCoaches s.coaches).isEmpty
    · rfl
    · exact absurd (sortCoaches_eq_nil (List.isEmpty_iff.mp hsc)) hcoach
  have htb : s.templates.length = 0 := by rw [htmpl]; rfl
  refine ⟨_, ensure_schedule_even_eq hwinb hcb htb, ?_, sortCoaches_perm _, ?_, ?_,
    (sortEvents (iter_events start (start + 7 * weeks))).enum.map (fun ie =>
      { id := s.nextLessonId + ie.1
        day_of_week := ie.2.2.1
        time_slot := ie.2.2.2
        grade_level := GRADE_BY_SLOT ie.2.2.2
        coach_id := ((sortCoaches s.coaches).getD
          (ie.1 % (sortCoaches s.coaches).length) ⟨0⟩).id
        max_capacity := 4
        lesson_date := ie.2.1 }), rfl, ?_, ?_⟩
  · exact (sortCoaches_sorted s.coaches).imp fun h => h
  · intro e
    exact mem_sortEvents.trans mem_iter_events
  · exact sortEvents_iter_pairwise_strict start (start + 7 * weeks)
  · simp
  · intro i e he
    have hi : i < (sortEvents (iter_events start (start + 7 * weeks))).length := by
      by_contra hni
      rw [List.getElem?_eq_none (by omega)] at he
      exact Option.noConfusion he
    rw [List.getElem?_map, List.getElem?_enum]
    rw [List.getElem?_eq_getElem hi] at he
    have he2 : (sortEvents (iter_events start (start + 7 * weeks)))[i] = e :=
      Option.some.inj he
    rw [List.getElem?_eq_getElem (by simpa using hi)]
    simp [List.getElem_enum, he2]

theorem C1_even_distribution_round_robin_witness :
    (∀ l ∈ oneCoachState.lessons, ¬(0 ≤ l.lesson_date ∧ l.lesson_date < 0 + 7 * 1)) ∧
      oneCoachState.coaches ≠ [] ∧ oneCoachState.templates = [] ∧
      ∃ s2, ensure_schedule oneCoachState 0 1 = Except.ok s2 :=
  ⟨by simp [oneCoachState], by decide, rfl,
    (C1_even_distribution_round_robin oneCoachState 0 1 (by simp [oneCoachState])
      (by decide) rfl).elim fun s2 h => ⟨s2, h.1⟩⟩

/-! ### Template expansion -/

theorem lessonKeyNe_symm {a b : Lesson} (h : lessonKeyNe a b) : lessonKeyNe b a := by
  unfold lessonKeyNe at h ⊢
  intro hk
  exact h ⟨hk.1.symm, hk.2.1.symm, hk.2.2.symm⟩

theorem generateStep_foldl_spec (tmpl : LessonTemplate) (dts : List Nat) :
    ∀ acc : Nat × State, ∃ tail : List Lesson,
      (dts.foldl (generateStep tmpl) acc).2.lessons = acc.2.lessons ++ tail ∧
      (dts.foldl (generateStep tmpl) acc).1 = acc.1 + tail.length ∧
      (∀ l ∈ tail, l.lesson_date ∈ dts) ∧
      (dts.foldl (generateStep tmpl) acc).2.coaches = acc.2.coaches ∧
      (dts.foldl (generateStep tmpl) acc).2.learners = acc.2.learners ∧
      (dts.foldl (generateStep tmpl) acc).2.templates = acc.2.templates ∧
      (dts.foldl (generateStep tmpl) acc).2.bookings = acc.2.bookings ∧
      (dts.foldl (generateStep tmpl) acc).2.nextLessonId = acc.2.nextLessonId + tail.length ∧
      (dts.foldl (generateStep tmpl) acc).2.nextBookingId = acc.2.nextBookingId ∧
      (acc.2.lessons.Pairwise lessonKeyNe → (acc.2.lessons ++ tail).Pairwise lessonKeyNe) := by
  induction dts with
  | nil =>
    intro acc
    exact ⟨[], by simp, by simp, by simp, rfl, rfl, rfl, rfl, by simp, rfl,
      fun h => by simpa using h⟩
  | cons dt rest ih =>
    intro acc
    rw [List.foldl_cons]
    by_cases hdup : (acc.2.lessons.any fun l =>
        decide (l.lesson_date = dt) && decide (l.time_slot = tmpl.time_slot)
          && decide (l.coach_id = tmpl.coach_id)) = true
    · have hstep : generateStep tmpl acc dt = acc := by
        unfold generateStep
        simp [hdup]
      rw [hstep]
      obtain ⟨tail, h1, h2, h3, h4, h5, h6, h7, h8, h9, h10⟩ := ih acc
      exact ⟨tail, h1, h2, fun l hl => List.mem_cons_of_mem _ (h3 l hl),
        h4, h5, h6, h7, h8, h9, h10⟩
    · rw [Bool.not_eq_true] at hdup
      have hstep : generateStep tmpl acc dt =
          (acc.1 + 1,
           { acc.2 with
              lessons := acc.2.lessons ++
                [(⟨acc.2.nextLessonId, tmpl.day_of_week, tmpl.time_slot, tmpl.grade_level,
                   tmpl.coach_id, 4, dt⟩ : Lesson)]
              nextLessonId := acc.2.nextLessonId + 1 }) := by
        unfold generateStep
        simp [hdup]
      rw [hstep]
      obtain ⟨tail, h1, h2, h3, h4, h5, h6, h7, h8, h9, h10⟩ := ih _
      refine ⟨(⟨acc.2.nextLessonId, tmpl.day_of_week, tmpl.time_slot, tmpl.grade_level,
          tmpl.coach_id, 4, dt⟩ : Lesson) :: tail, ?_, ?_, ?_, h4, h5, h6, h7, ?_, h9, ?_⟩
      · rw [h1]
        simp
      · rw [h2]
        simp
        omega
      · intro l hl
        rcases List.mem_cons.mp hl with rfl | hl2
        · exact List.mem_cons_self _ _
        · exact List.mem_cons_of_mem _ (h3 l hl2)
      · rw [h8]
        simp
        omega
      · intro hp
        have hnew : (acc.2.lessons ++
            [(⟨acc.2.nextLessonId, tmpl.day_of_week, tmpl.time_slot, tmpl.grade_level,
               tmpl.coach_id, 4, dt⟩ : Lesson)]).Pairwise lessonKeyNe := by
          rw [List.pairwise_append]
          refine ⟨hp, List.pairwise_singleton _ _, ?_⟩
          intro a ha b hb
          rw [List.mem_singleton] at hb
          subst hb
          rw [List.any_eq_false] at hdup
          have := hdup a ha
          unfold lessonKeyNe
          intro hk
          apply this
          simp only [Bool.and_eq_true, decide_eq_true_eq]
          exact ⟨⟨hk.1, hk.2.1⟩, hk.2.2⟩
        have := h10 hnew
        rw [List.append_assoc] at this
        simpa using this

theorem expandTemplates_spec (start_on end_on : Nat) (tmpls : List LessonTemplate) :
    ∀ (acc r : Nat × State),
      expandTemplates start_on end_on tmpls acc = Except.ok r →
      ∃ tail : List Lesson,
        r.2.lessons = acc.2.lessons ++ tail ∧
        r.1 = acc.1 + tail.length ∧
        (∀ l ∈ tail, start_on ≤ l.lesson_date ∧ l.lesson_date < end_on) ∧
        r.2.coaches = acc.2.coaches ∧
        r.2.learners = acc.2.learners ∧
        r.2.templates = acc.2.templates ∧
        r.2.bookings = acc.2.bookings ∧
        r.2.nextLessonId = acc.2.nextLessonId + tail.length ∧
        r.2.nextBookingId = acc.2.nextBookingId ∧
        (acc.2.lessons.Pairwise lessonKeyNe → r.2.lessons.Pairwise lessonKeyNe) := by
  induction tmpls with
  | nil =>
    intro acc r h
    cases h
    exact ⟨[], by simp, by simp, by simp, rfl, rfl, rfl, rfl, by simp, rfl, fun h => h⟩
  | cons tmpl rest ih =>
    intro acc r h
    unfold expandTemplates at h
    by_cases hv : validate_day_and_slot tmpl.day_of_week tmpl.time_slot = true
    · rw [if_pos hv] at h
      obtain ⟨tail1, g1, g2, g3, g4, g5, g6, g7, g8, g9, g10⟩ :=
        generateStep_foldl_spec tmpl
          (whileDates (next_on_or_after start_on tmpl.day_of_week) end_on) acc
      obtain ⟨tail2, k1, k2, k3, k4, k5, k6, k7, k8, k9, k10⟩ := ih _ r h
      refine ⟨tail1 ++ tail2, ?_, ?_, ?_, by rw [k4, g4], by rw [k5, g5],
        by rw [k6, g6], by rw [k7, g7], ?_, by rw [k9, g9], ?_⟩
      · rw [k1, g1, List.append_assoc]
      · rw [k2, g2]
        simp
        omega
      · intro l hl
        rcases List.mem_append.mp hl with hl1 | hl2
        · have hd := g3 l hl1
          rw [mem_whileDates] at hd
          obtain ⟨k, hk, hlt⟩ := hd
          have := next_on_or_after_ge start_on tmpl.day_of_week
          omega
        · exact k3 l hl2
      · rw [k8, g8, List.length_append]
        omega
      · intro hp
        apply k10
        rw [g1]
        exact g10 hp
    · rw [if_neg hv] at h
      exact absurd h (by simp)

theorem generate_for_weeks_spec {s : State} {start_on weeks : Nat}
    {otmpl : Option (List LessonTemplate)} {n : Nat} {s2 : State}
    (h : generate_for_weeks s start_on weeks otmpl = Except.ok (n, s2)) :
    ∃ tail : List Lesson,
      s2.lessons = s.lessons ++ tail ∧
      n = tail.length ∧
      (∀ l ∈ tail, start_on ≤ l.lesson_date ∧ l.lesson_date < start_on + 7 * weeks) ∧
      s2.coaches = s.coaches ∧
      s2.learners = s.learners ∧
      s2.templates = s.templates ∧
      s2.bookings = s.bookings ∧
      s2.nextLessonId = s.nextLessonId + tail.length ∧
      s2.nextBookingId = s.nextBookingId ∧
      (s.lessons.Pairwise lessonKeyNe → s2.lessons.Pairwise lessonKeyNe) := by
  unfold generate_for_weeks at h
  obtain ⟨tail, h1, h2, h3, h4, h5, h6, h7, h8, h9, h10⟩ :=
    expandTemplates_spec start_on (start_on + 7 * weeks) (otmpl.getD s.templates) (0, s) (n, s2) h
  exact ⟨tail, h1, by simpa using h2, h3, h4, h5, h6, h7, h8, h9, h10⟩

/-- C2: template expansion preserves the absence of (date, slot, coach)
duplicates — over any starting store with pairwise-distinct lesson keys, and
over any further call on any (possibly overlapping) window — a lesson is only
added, never replaced, and the returned count is the number of lessons the
call created. -/
theorem C2_expand_no_duplicate_date_slot_coach (s : State) (start_on weeks : Nat)
    (otmpl : Option (List LessonTemplate)) (n : Nat) (s2 : State)
    (hkeys : s.lessons.Pairwise lessonKeyNe)
    (h : generate_for_weeks s start_on weeks otmpl = Except.ok (n, s2)) :
    s2.lessons.Pairwise lessonKeyNe ∧
    (∃ tail : List Lesson, s2.lessons = s.lessons ++ tail ∧ n = tail.length) ∧
    ∀ (start2 weeks2 : Nat) (otmpl2 : Option (List LessonTemplate)) (n2 : Nat) (s3 : State),
      generate_for_weeks s2 start2 weeks2 otmpl2 = Except.ok (n2, s3) →
      s3.lessons.Pairwise lessonKeyNe := by
  obtain ⟨tail, h1, h2, _, _, _, _, _, _, _, h10⟩ := generate_for_weeks_spec h
  refine ⟨h10 hkeys, ⟨tail, h1, h2⟩, ?_⟩
  intro start2 weeks2 otmpl2 n2 s3 h3
  obtain ⟨tail2, _, _, _, _, _, _, _, _, _, k10⟩ := generate_for_weeks_spec h3
  exact k10 (h10 hkeys)

theorem C2_expand_no_duplicate_date_slot_coach_witness :
    templateState.lessons.Pairwise lessonKeyNe ∧
    generate_for_weeks templateState 0 1 none =
      Except.ok (1, { templateState with
        lessons := [⟨0, "Monday", "4-5pm", 2, 1, 4, 0⟩], nextLessonId := 1 }) ∧
    ({ templateState with
        lessons := [⟨0, "Monday", "4-5pm", 2, 1, 4, 0⟩],
        nextLessonId := 1 } : State).lessons.Pairwise lessonKeyNe :=
  ⟨List.Pairwise.nil, rfl,
    (C2_expand_no_duplicate_date_slot_coach templateState 0 1 none 1 _
      List.Pairwise.nil rfl).1⟩

/-! ### Idempotence of ensure_schedule -/

theorem state_eq_of_fields {a b : State} (h1 : a.coaches = b.coaches)
    (h2 : a.learners = b.learners) (h3 : a.lessons = b.lessons)
    (h4 : a.templates = b.templates) (h5 : a.bookings = b.bookings)
    (h6 : a.nextLessonId = b.nextLessonId) (h7 : a.nextBookingId = b.nextBookingId) :
    a = b := by
  cases a
  cases b
  simp_all

/-- C3: `ensure_schedule` is a no-op when a lesson already lies in the window
or when no coach exists, and calling it twice with no intervening state change
leaves the state of the first call untouched. -/
theorem C3_ensure_schedule_noop_and_idempotent (s : State) (start weeks : Nat) :
    ((∃ l ∈ s.lessons, start ≤ l.lesson_date ∧ l.lesson_date < start + 7 * weeks) →
      ensure_schedule s start weeks = Except.ok s) ∧
    (s.coaches = [] → ensure_schedule s start weeks = Except.ok s) ∧
    (∀ s1, ensure_schedule s start weeks = Except.ok s1 →
      ensure_schedule s1 start weeks = Except.ok s1) := by
  refine ⟨?_, ?_, ?_⟩
  · rintro ⟨l, hl, hwl⟩
    apply ensure_schedule_skip_window
    rw [List.any_eq_true]
    exact ⟨l, hl, by simp [hwl.1, hwl.2]⟩
  · exact ensure_schedule_skip_nocoach
  · intro s1 h
    by_cases hany : (s.lessons.any fun l =>
        decide (start ≤ l.lesson_date) && decide (l.lesson_date < start + 7 * weeks)) = true
    · rw [ensure_schedule_skip_window hany] at h
      cases h
      exact ensure_schedule_skip_window hany
    · rw [Bool.not_eq_true] at hany
      by_cases hc : (sortCoaches s.coaches).isEmpty = true
      · have hc0 : s.coaches = [] := sortCoaches_eq_nil (List.isEmpty_iff.mp hc)
        rw [ensure_schedule_skip_nocoach hc0] at h
        cases h
        exact ensure_schedule_skip_nocoach hc0
      · rw [Bool.not_eq_true] at hc
        by_cases ht : 0 < s.templates.length
        · rw [ensure_schedule_template_eq hany hc ht] at h
          cases hg : generate_for_weeks s start weeks none with
          | error e =>
            rw [hg] at h
            exact absurd h (by simp [Except.map])
          | ok p =>
            obtain ⟨n, s2⟩ := p
            rw [hg] at h
            replace h : s2 = s1 := by simpa [Except.map] using h
            subst h
            obtain ⟨tail, g1, g2, g3, g4, g5, g6, g7, g8, g9, g10⟩ :=
              generate_for_weeks_spec hg
            cases htail : tail with
            | nil =>
              subst htail
              have hs2 : s2 = s := by
                apply state_eq_of_fields g4 g5 (by simpa using g1) g6 g7 (by simpa using g8) g9
              rw [hs2]
              rw [ensure_schedule_template_eq hany hc ht, hg]
              simp [Except.map, hs2]
            | cons l rest =>
              apply ensure_schedule_skip_window
              rw [List.any_eq_true]
              refine ⟨l, ?_, ?_⟩
              · rw [g1, htail]
                exact List.mem_append_right _ (List.mem_cons_self _ _)
              · have := g3 l (by rw [htail]; exact List.mem_cons_self _ _)
                simp [this.1, this.2]
        · have ht0 : s.templates.length = 0 := by omega
          rw [ensure_schedule_even_eq hany hc ht0] at h
          cases h
          by_cases hnil : sortEvents (iter_events start (start + 7 * weeks)) = []
          case pos =>
            have hrec : ({ s with
                lessons := s.lessons ++
                  (sortEvents (iter_events start (start + 7 * weeks))).enum.map (fun ie =>
                    { id := s.nextLessonId + ie.1
                      day_of_week := ie.2.2.1
                      time_slot := ie.2.2.2
                      grade_level := GRADE_BY_SLOT ie.2.2.2
                      coach_id := ((sortCoaches s.coaches).getD
                        (ie.1 % (sortCoaches s.coaches).length) ⟨0⟩).id
                      max_capacity := 4
                      lesson_date := ie.2.1 })
                nextLessonId :=
                  s.nextLessonId + (sortEvents (iter_events start (start + 7 * weeks))).length }
                  : State) = s := by
              refine state_eq_of_fields ?_ ?_ ?_ ?_ ?_ ?_ ?_ <;> simp [hnil]
            rw [hrec]
            rw [ensure_schedule_even_eq hany hc ht0, hrec]
          case neg =>
            obtain ⟨e, rest, hev⟩ := List.exists_cons_of_ne_nil hnil
            apply ensure_schedule_skip_window
            rw [List.any_eq_true]
            have hemem : e ∈ sortEvents (iter_events start (start + 7 * weeks)) := by
              rw [hev]
              exact List.mem_cons_self _ _
            have hbounds := mem_iter_events.mp (mem_sortEvents.mp hemem)
            refine ⟨{ id := s.nextLessonId + 0
                      day_of_week := e.2.1
                      time_slot := e.2.2
                      grade_level := GRADE_BY_SLOT e.2.2
                      coach_id := ((sortCoaches s.coaches).getD
                        (0 % (sortCoaches s.coaches).length) ⟨0⟩).id
                      max_capacity := 4
                      lesson_date := e.1 }, ?_, ?_⟩
            · apply List.mem_append_right
              rw [List.mem_map]
              refine ⟨(0, e), ?_, rfl⟩
              have h0 : (sortEvents (iter_events start (start + 7 * weeks))).enum[0]? =
                  some (0, e) := by
                simp [List.getElem?_enum, hev]
              exact List.getElem?_mem h0
            · simp [hbounds.2.2.1, hbounds.2.2.2.1]

theorem C3_ensure_schedule_noop_and_idempotent_witness :
    ensure_schedule lessonInWindowState 0 1 = Except.ok lessonInWindowState ∧
    ensure_schedule noCoachState 0 1 = Except.ok noCoachState ∧
    ∃ s1, ensure_schedule oneCoachState 0 1 = Except.ok s1 ∧
      ensure_schedule s1 0 1 = Except.ok s1 :=
  ⟨(C3_ensure_schedule_noop_and_idempotent lessonInWindowState 0 1).1
      ⟨⟨0, "Monday", "4-5pm", 1, 1, 4, 0⟩, List.mem_cons_self _ _, by decide⟩,
    (C3_ensure_schedule_noop_and_idempotent noCoachState 0 1).2.1 rfl,
    ⟨_, rfl, (C3_ensure_schedule_noop_and_idempotent oneCoachState 0 1).2.2 _ rfl⟩⟩

/-! ### Coach integration: the frame invariant -/

theorem lesson_eq_of_fields {a b : Lesson} (h1 : a.id = b.id)
    (h2 : a.day_of_week = b.day_of_week) (h3 : a.time_slot = b.time_slot)
    (h4 : a.grade_level = b.grade_level) (h5 : a.coach_id = b.coach_id)
    (h6 : a.max_capacity = b.max_capacity) (h7 : a.lesson_date = b.lesson_date) :
    a = b := by
  cases a
  cases b
  simp_all

theorem two_le_countP_of_getElem {α : Type _} (l : List α) (p : α → Bool) {i j : Nat}
    {a b : α} (hij : i < j) (hi : l[i]? = some a) (hj : l[j]? = some b)
    (ha : p a = true) (hb : p b = true) : 2 ≤ l.countP p := by
  have hsplit : l = l.take (i + 1) ++ l.drop (i + 1) := (List.take_append_drop _ _).symm
  rw [hsplit, List.countP_append]
  have hmema : a ∈ l.take (i + 1) := by
    have h0 : (l.take (i + 1))[i]? = some a := by
      rw [List.getElem?_take]
      simp [Nat.lt_succ_self, hi]
    exact List.getElem?_mem h0
  have hmemb : b ∈ l.drop (i + 1) := by
    have h0 : (l.drop (i + 1))[j - (i + 1)]? = some b := by
      rw [List.getElem?_drop]
      have hx : i + 1 + (j - (i + 1)) = j := by omega
      rw [hx]
      exact hj
    exact List.getElem?_mem h0
  have h1 : 0 < (l.take (i + 1)).countP p := List.countP_pos.mpr ⟨a, hmema, ha⟩
  have h2 : 0 < (l.drop (i + 1)).countP p := List.countP_pos.mpr ⟨b, hmemb, hb⟩
  omega

theorem IntegrateInv.refl (s0 : State) : IntegrateInv s0 s0 := by
  refine ⟨rfl, rfl, rfl, rfl, rfl, ?_⟩
  intro i l0 hi
  exact ⟨l0, hi, ⟨rfl, rfl, rfl, rfl, rfl, rfl⟩, fun h => absurd rfl h, fun _ => rfl⟩

theorem IntegrateInv.step (idByIndex : List Nat) (ie : Nat × Event) {s0 st : State}
    (hinv : IntegrateInv s0 st) : IntegrateInv s0 (integrateStep idByIndex st ie) := by
  obtain ⟨hb, hc, hlr, ht, hnb, hlessons⟩ := hinv
  rcases hm : st.lessons.filter
      (fun l => decide (l.lesson_date = ie.2.1) && decide (l.time_slot = ie.2.2.2)) with
    _ | ⟨l, _ | ⟨l2, ls⟩⟩
  · -- no lesson at the event: a new one is appended
    have hstep : integrateStep idByIndex st ie =
        { st with
          lessons := st.lessons ++
            [(⟨st.nextLessonId, ie.2.2.1, ie.2.2.2, GRADE_BY_SLOT ie.2.2.2,
               idByIndex.getD (ie.1 % idByIndex.length) 0, 4, ie.2.1⟩ : Lesson)]
          nextLessonId := st.nextLessonId + 1 } := by
      simp only [integrateStep, hm]
    rw [hstep]
    refine ⟨hb, hc, hlr, ht, hnb, ?_⟩
    intro i l0 hi
    obtain ⟨l1, hl1, hframe, hbk, hdup⟩ := hlessons i l0 hi
    obtain ⟨hlt, _⟩ := List.getElem?_eq_some.mp hl1
    refine ⟨l1, ?_, hframe, hbk, hdup⟩
    rw [List.getElem?_append]
    simp only [if_pos hlt]
    exact hl1
  · -- exactly one lesson at the event
    by_cases hcoach : l.coach_id = idByIndex.getD (ie.1 % idByIndex.length) 0
    · have hstep : integrateStep idByIndex st ie = st := by
        simp only [integrateStep, hm]
        rw [if_pos hcoach]
      rw [hstep]
      exact ⟨hb, hc, hlr, ht, hnb, hlessons⟩
    · by_cases hguard : (st.bookings.filter fun b => decide (b.lesson_id = l.id)).length = 0
      · -- reassign the single unbooked lesson
        have hstep : integrateStep idByIndex st ie =
            { st with
              lessons := st.lessons.map fun x =>
                if decide (x.lesson_date = ie.2.1) && decide (x.time_slot = ie.2.2.2) then
                  { x with coach_id := idByIndex.getD (ie.1 % idByIndex.length) 0 }
                else x } := by
          simp only [integrateStep, hm]
          rw [if_neg hcoach, if_pos hguard]
        rw [hstep]
        refine ⟨hb, hc, hlr, ht, hnb, ?_⟩
        intro i l0 hi
        obtain ⟨l1, hl1, hframe, hbk, hdup⟩ := hlessons i l0 hi
        by_cases hp : (decide (l1.lesson_date = ie.2.1) && decide (l1.time_slot = ie.2.2.2)) = true
        · -- l1 is the matched lesson, so it is l and it has no bookings
          have hl1mem : l1 ∈ st.lessons.filter
              (fun x => decide (x.lesson_date = ie.2.1) && decide (x.time_slot = ie.2.2.2)) := by
            rw [List.mem_filter]
            exact ⟨List.getElem?_mem hl1, hp⟩
          rw [hm, List.mem_singleton] at hl1mem
          subst hl1mem
          have hempty : s0.bookings.filter (fun b => decide (b.lesson_id = l0.id)) = [] := by
            rw [← hb]
            rw [List.length_eq_zero] at hguard
            have hid : l1.id = l0.id := hframe.1
            rw [← hid]
            exact hguard
          refine ⟨{ l1 with coach_id := idByIndex.getD (ie.1 % idByIndex.length) 0 }, ?_, ?_, ?_, ?_⟩
          · rw [List.getElem?_map, hl1, Option.map_some', if_pos hp]
          · exact hframe
          · intro _
            exact hempty
          · -- a duplicate (date, slot) contradicts the singleton filter
            rintro ⟨j, l0', hji, hj, hdate, hslot⟩
            exfalso
            obtain ⟨l1', hl1', hframe', _, hdup'⟩ := hlessons j l0' hj
            have hl1'eq : l1' = l0' := hdup' ⟨i, l0, fun h => hji h.symm, hi, hdate.symm, hslot.symm⟩
            have hp' : (decide (l1'.lesson_date = ie.2.1)
                && decide (l1'.time_slot = ie.2.2.2)) = true := by
              have e1 : l1.lesson_date = l0.lesson_date := hframe.2.2.2.2.2
              have e2 : l1.time_slot = l0.time_slot := hframe.2.2.1
              simp only [Bool.and_eq_true, decide_eq_true_eq] at hp ⊢
              rw [hl1'eq, hdate, hslot, ← e1, ← e2]
              exact hp
            have hcount : 2 ≤ st.lessons.countP
                (fun x => decide (x.lesson_date = ie.2.1) && decide (x.time_slot = ie.2.2.2)) := by
              rcases Nat.lt_or_ge i j with hij | hij
              · exact two_le_countP_of_getElem _ _ hij hl1 hl1' hp hp'
              · have hij2 : j < i := by
                  rcases Nat.lt_or_ge j i with h2 | h2
                  · exact h2
                  · exact absurd (by omega : i = j) (fun h => hji h.symm)
                exact two_le_countP_of_getElem _ _ hij2 hl1' hl1 hp' hp
            rw [List.countP_eq_length_filter, hm] at hcount
            simp at hcount
        · -- l1 is not at the event's (date, slot): untouched
          rw [Bool.not_eq_true] at hp
          refine ⟨l1, ?_, hframe, hbk, hdup⟩
          rw [List.getElem?_map, hl1, Option.map_some', hp]
          simp
      · have hstep : integrateStep idByIndex st ie = st := by
          simp only [integrateStep, hm]
          rw [if_neg hcoach, if_neg hguard]
        rw [hstep]
        exact ⟨hb, hc, hlr, ht, hnb, hlessons⟩
  · -- several lessons at the event: skipped
    have hstep : integrateStep idByIndex st ie = st := by
      simp only [integrateStep, hm]
    rw [hstep]
    exact ⟨hb, hc, hlr, ht, hnb, hlessons⟩

theorem IntegrateInv.foldl (idByIndex : List Nat) (ies : List (Nat × Event)) :
    ∀ {s0 st : State}, IntegrateInv s0 st →
      IntegrateInv s0 (ies.foldl (integrateStep idByIndex) st) := by
  induction ies with
  | nil => intro s0 st h; exact h
  | cons ie rest ih =>
    intro s0 st h
    rw [List.foldl_cons]
    exact ih (h.step idByIndex ie)

theorem integrate_new_coach_inv (s : State) (cid start weeks : Nat) :
    IntegrateInv s (integrate_new_coach s cid start weeks) := by
  unfold integrate_new_coach
  by_cases he : (sortCoaches s.coaches).isEmpty
  · simp only [he, if_true]
    exact IntegrateInv.refl s
  · simp only [he, if_false, Bool.false_eq_true]
    exact IntegrateInv.foldl _ _ (IntegrateInv.refl s)

/-- C4: `integrate_new_coach` never reassigns a booked lesson — bookings are
untouched, every pre-existing lesson keeps its position and all fields except
possibly the coach, the coach changes only when the lesson has no booking
records, and a lesson sharing its (date, slot) with another pre-existing
lesson is left entirely unchanged. -/
theorem C4_integrate_never_reassigns_booked (s : State) (cid start weeks : Nat) :
    (integrate_new_coach s cid start weeks).bookings = s.bookings ∧
    ∀ i l0, s.lessons[i]? = some l0 →
      ∃ l1, (integrate_new_coach s cid start weeks).lessons[i]? = some l1 ∧
        l1.id = l0.id ∧ l1.day_of_week = l0.day_of_week ∧ l1.time_slot = l0.time_slot ∧
        l1.grade_level = l0.grade_level ∧ l1.max_capacity = l0.max_capacity ∧
        l1.lesson_date = l0.lesson_date ∧
        (l1.coach_id ≠ l0.coach_id →
          s.bookings.filter (fun b => decide (b.lesson_id = l0.id)) = []) ∧
        ((∃ (j : Nat) (l0' : Lesson), j ≠ i ∧ s.lessons[j]? = some l0' ∧
            l0'.lesson_date = l0.lesson_date ∧ l0'.time_slot = l0.time_slot) → l1 = l0) := by
  obtain ⟨hb, _, _, _, _, hlessons⟩ := integrate_new_coach_inv s cid start weeks
  refine ⟨hb, ?_⟩
  intro i l0 hi
  obtain ⟨l1, hl1, hframe, hbk, hdup⟩ := hlessons i l0 hi
  exact ⟨l1, hl1, hframe.1, hframe.2.1, hframe.2.2.1, hframe.2.2.2.1,
    hframe.2.2.2.2.1, hframe.2.2.2.2.2, hbk, hdup⟩

theorem C4_integrate_never_reassigns_booked_witness :
    bookedLessonState.lessons[0]? = some ⟨5, "Monday", "4-5pm", 1, 2, 4, 0⟩ ∧
    ∃ l1, (integrate_new_coach bookedLessonState 2 0 1).lessons[0]? = some l1 ∧
      l1.id = 5 :=
  ⟨rfl,
    ((C4_integrate_never_reassigns_booked bookedLessonState 2 0 1).2 0
      ⟨5, "Monday", "4-5pm", 1, 2, 4, 0⟩ rfl).elim
      fun l1 h => ⟨l1, h.1, h.2.1⟩⟩

/-- C10: reassignability in `integrate_new_coach` is decided by whether the
lesson's booking records are empty, regardless of status — a lesson whose
bookings are all cancelled, attended or missed (no `booked` row, but at least
one record) is still never touched. -/
theorem C10_integrate_counts_nonbooked_records (s : State) (cid start weeks : Nat)
    (i : Nat) (l0 : Lesson) (hi : s.lessons[i]? = some l0)
    (hstatus : ∀ b ∈ s.bookings, b.lesson_id = l0.id →
      b.booking_status = "cancelled" ∨ b.booking_status = "attended" ∨
        b.booking_status = "missed")
    (hnonempty : ∃ b ∈ s.bookings, b.lesson_id = l0.id) :
    (integrate_new_coach s cid start weeks).lessons[i]? = some l0 := by
  obtain ⟨hb, _, _, _, _, hlessons⟩ := integrate_new_coach_inv s cid start weeks
  obtain ⟨l1, hl1, hframe, hbk, _⟩ := hlessons i l0 hi
  obtain ⟨b, hbmem, hbid⟩ := hnonempty
  have hcoach : l1.coach_id = l0.coach_id := by
    by_contra hne
    have hempty := hbk hne
    have : b ∈ s.bookings.filter (fun x => decide (x.lesson_id = l0.id)) := by
      rw [List.mem_filter]
      exact ⟨hbmem, by simp [hbid]⟩
    rw [hempty] at this
    exact List.not_mem_nil b this
  have : l1 = l0 := lesson_eq_of_fields hframe.1 hframe.2.1 hframe.2.2.1
    hframe.2.2.2.1 hcoach hframe.2.2.2.2.1 hframe.2.2.2.2.2
  rw [← this]
  exact hl1

theorem C10_integrate_counts_nonbooked_records_witness :
    cancelledLessonState.lessons[0]? = some ⟨5, "Monday", "4-5pm", 1, 2, 4, 0⟩ ∧
    (integrate_new_coach cancelledLessonState 2 0 1).lessons[0]? =
      some ⟨5, "Monday", "4-5pm", 1, 2, 4, 0⟩ :=
  ⟨rfl,
    C10_integrate_counts_nonbooked_records cancelledLessonState 2 0 1 0
      ⟨5, "Monday", "4-5pm", 1, 2, 4, 0⟩ rfl
      (by decide)
      ⟨⟨1, 1, 5, "cancelled", false, false⟩, List.mem_cons_self _ _, rfl⟩⟩

/-! ### Coach integration: idempotence -/

theorem foldl_fixed_of_mem {α β : Type _} (f : β → α → β) (l : List α) (b : β)
    (h : ∀ a ∈ l, f b a = b) : l.foldl f b = b := by
  induction l with
  | nil => rfl
  | cons x xs ih =>
    rw [List.foldl_cons, h x (List.mem_cons_self _ _)]
    exact ih fun a ha => h a (List.mem_cons_of_mem _ ha)

theorem map_self_of_fixed {α : Type _} (l : List α) (f : α → α) (h : ∀ x ∈ l, f x = x) :
    l.map f = l := by
  induction l with
  | nil => rfl
  | cons x xs ih =>
    rw [List.map_cons, h x (List.mem_cons_self _ _)]
    rw [ih fun a ha => h a (List.mem_cons_of_mem _ ha)]

theorem filter_map_comm {α : Type _} (p : α → Bool) (f : α → α)
    (hpf : ∀ x, p (f x) = p x) (l : List α) :
    (l.map f).filter p = (l.filter p).map f := by
  rw [List.filter_map]
  congr 1
  apply List.filter_congr
  intro x _
  exact hpf x

theorem integratedAt.step_fixed {idByIndex : List Nat} {st : State} {ie : Nat × Event}
    (h : integratedAt idByIndex st ie) : integrateStep idByIndex st ie = st := by
  obtain ⟨hne, hsingle⟩ := h
  rcases hm : st.lessons.filter
      (fun l => decide (l.lesson_date = ie.2.1) && decide (l.time_slot = ie.2.2.2)) with
    _ | ⟨l, _ | ⟨l2, ls⟩⟩
  · exact absurd hm hne
  · simp only [integrateStep, hm]
    rcases hsingle l hm with hcoach | hbk
    · rw [if_pos hcoach]
    · by_cases hcoach : l.coach_id = idByIndex.getD (ie.1 % idByIndex.length) 0
      · rw [if_pos hcoach]
      · rw [if_neg hcoach, if_neg]
        intro hlen
        exact hbk (List.length_eq_zero.mp hlen)
  · simp only [integrateStep, hm]

theorem integratedAt_after_step (idByIndex : List Nat) (st : State) (ie : Nat × Event) :
    integratedAt idByIndex (integrateStep idByIndex st ie) ie := by
  rcases hm : st.lessons.filter
      (fun l => decide (l.lesson_date = ie.2.1) && decide (l.time_slot = ie.2.2.2)) with
    _ | ⟨l, _ | ⟨l2, ls⟩⟩
  · have hstep : integrateStep idByIndex st ie =
        { st with
          lessons := st.lessons ++
            [(⟨st.nextLessonId, ie.2.2.1, ie.2.2.2, GRADE_BY_SLOT ie.2.2.2,
               idByIndex.getD (ie.1 % idByIndex.length) 0, 4, ie.2.1⟩ : Lesson)]
          nextLessonId := st.nextLessonId + 1 } := by
      simp only [integrateStep, hm]
    rw [hstep]
    have hfilter : ((st.lessons ++
        [(⟨st.nextLessonId, ie.2.2.1, ie.2.2.2, GRADE_BY_SLOT ie.2.2.2,
           idByIndex.getD (ie.1 % idByIndex.length) 0, 4, ie.2.1⟩ : Lesson)]).filter fun l =>
          decide (l.lesson_date = ie.2.1) && decide (l.time_slot = ie.2.2.2)) =
        [(⟨st.nextLessonId, ie.2.2.1, ie.2.2.2, GRADE_BY_SLOT ie.2.2.2,
           idByIndex.getD (ie.1 % idByIndex.length) 0, 4, ie.2.1⟩ : Lesson)] := by
      rw [List.filter_append, hm]
      simp
    refine ⟨?_, ?_⟩
    · rw [hfilter]
      exact List.cons_ne_nil _ _
    · intro l1 hl1
      rw [hfilter] at hl1
      have := (List.cons.injEq _ _ _ _).mp hl1
      rw [← this.1]
      exact Or.inl rfl
  · by_cases hcoach : l.coach_id = idByIndex.getD (ie.1 % idByIndex.length) 0
    · have hstep : integrateStep idByIndex st ie = st := by
        simp only [integrateStep, hm]
        rw [if_pos hcoach]
      rw [hstep]
      refine ⟨by rw [hm]; exact List.cons_ne_nil _ _, ?_⟩
      intro l1 hl1
      rw [hm] at hl1
      have := (List.cons.injEq _ _ _ _).mp hl1
      rw [← this.1]
      exact Or.inl hcoach
    · by_cases hguard : (st.bookings.filter fun b => decide (b.lesson_id = l.id)).length = 0
      · have hstep : integrateStep idByIndex st ie =
            { st with
              lessons := st.lessons.map fun x =>
                if decide (x.lesson_date = ie.2.1) && decide (x.time_slot = ie.2.2.2) then
                  { x with coach_id := idByIndex.getD (ie.1 % idByIndex.length) 0 }
                else x } := by
          simp only [integrateStep, hm]
          rw [if_neg hcoach, if_pos hguard]
        rw [hstep]
        have hpl : (decide (l.lesson_date = ie.2.1) && decide (l.time_slot = ie.2.2.2)) = true := by
          have : l ∈ st.lessons.filter
              (fun x => decide (x.lesson_date = ie.2.1) && decide (x.time_slot = ie.2.2.2)) := by
            rw [hm]
            exact List.mem_cons_self _ _
          exact (List.mem_filter.mp this).2
        have hfilter : ((st.lessons.map fun x =>
            if decide (x.lesson_date = ie.2.1) && decide (x.time_slot = ie.2.2.2) then
              { x with coach_id := idByIndex.getD (ie.1 % idByIndex.length) 0 }
            else x).filter fun x =>
              decide (x.lesson_date = ie.2.1) && decide (x.time_slot = ie.2.2.2)) =
            [{ l with coach_id := idByIndex.getD (ie.1 % idByIndex.length) 0 }] := by
          rw [filter_map_comm]
          · rw [hm, List.map_cons, List.map_nil, if_pos hpl]
          · intro x
            by_cases hx : (decide (x.lesson_date = ie.2.1) && decide (x.time_slot = ie.2.2.2)) = true
            · rw [if_pos hx]
            · rw [if_neg hx]
        refine ⟨by rw [hfilter]; exact List.cons_ne_nil _ _, ?_⟩
        intro l1 hl1
        rw [hfilter] at hl1
        have := (List.cons.injEq _ _ _ _).mp hl1
        rw [← this.1]
        exact Or.inl rfl
      · have hstep : integrateStep idByIndex st ie = st := by
          simp only [integrateStep, hm]
          rw [if_neg hcoach, if_neg hguard]
        rw [hstep]
        refine ⟨by rw [hm]; exact List.cons_ne_nil _ _, ?_⟩
        intro l1 hl1
        rw [hm] at hl1
        have := (List.cons.injEq _ _ _ _).mp hl1
        refine Or.inr ?_
        rw [← this.1]
        intro hnil
        rw [List.length_eq_zero] at hguard
        exact hguard hnil
  · have hstep : integrateStep idByIndex st ie = st := by
      simp only [integrateStep, hm]
    rw [hstep]
    refine ⟨by rw [hm]; exact List.cons_ne_nil _ _, ?_⟩
    intro l1 hl1
    rw [hm] at hl1
    exact absurd (congrArg List.length hl1) (by simp)

theorem integratedAt_preserved (idByIndex : List Nat) (st : State) {ie ie' : Nat × Event}
    (hkey : ¬(ie'.2.1 = ie.2.1 ∧ ie'.2.2.2 = ie.2.2.2))
    (h : integratedAt idByIndex st ie) :
    integratedAt idByIndex (integrateStep idByIndex st ie') ie := by
  obtain ⟨hne, hsingle⟩ := h
  have hdisjoint : ∀ x : Lesson,
      (decide (x.lesson_date = ie.2.1) && decide (x.time_slot = ie.2.2.2)) = true →
      (decide (x.lesson_date = ie'.2.1) && decide (x.time_slot = ie'.2.2.2)) = false := by
    intro x hx
    simp only [Bool.and_eq_true, decide_eq_true_eq] at hx
    rw [Bool.and_eq_false_iff]
    by_cases hd : x.lesson_date = ie'.2.1
    · refine Or.inr ?_
      rw [decide_eq_false_iff_not]
      intro hs
      exact hkey ⟨hd ▸ hx.1.symm ▸ rfl, hs ▸ hx.2.symm ▸ rfl⟩
    · exact Or.inl (by rw [decide_eq_false_iff_not]; exact hd)
  rcases hm : st.lessons.filter
      (fun l => decide (l.lesson_date = ie'.2.1) && decide (l.time_slot = ie'.2.2.2)) with
    _ | ⟨l, _ | ⟨l2, ls⟩⟩
  · have hstep : integrateStep idByIndex st ie' =
        { st with
          lessons := st.lessons ++
            [(⟨st.nextLessonId, ie'.2.2.1, ie'.2.2.2, GRADE_BY_SLOT ie'.2.2.2,
               idByIndex.getD (ie'.1 % idByIndex.length) 0, 4, ie'.2.1⟩ : Lesson)]
          nextLessonId := st.nextLessonId + 1 } := by
      simp only [integrateStep, hm]
    rw [hstep]
    have hnewfalse : ((decide ((⟨st.nextLessonId, ie'.2.2.1, ie'.2.2.2,
        GRADE_BY_SLOT ie'.2.2.2, idByIndex.getD (ie'.1 % idByIndex.length) 0, 4,
        ie'.2.1⟩ : Lesson).lesson_date = ie.2.1)
          && decide ((⟨st.nextLessonId, ie'.2.2.1, ie'.2.2.2, GRADE_BY_SLOT ie'.2.2.2,
            idByIndex.getD (ie'.1 % idByIndex.length) 0, 4,
            ie'.2.1⟩ : Lesson).time_slot = ie.2.2.2)) : Bool) = false := by
      simp only [Bool.and_eq_false_iff, decide_eq_false_iff_not]
      by_cases hd : ie'.2.1 = ie.2.1
      · exact Or.inr fun hs => hkey ⟨hd, hs⟩
      · exact Or.inl hd
    have hfilter : ((st.lessons ++
        [(⟨st.nextLessonId, ie'.2.2.1, ie'.2.2.2, GRADE_BY_SLOT ie'.2.2.2,
           idByIndex.getD (ie'.1 % idByIndex.length) 0, 4, ie'.2.1⟩ : Lesson)]).filter fun l =>
          decide (l.lesson_date = ie.2.1) && decide (l.time_slot = ie.2.2.2)) =
        st.lessons.filter fun l =>
          decide (l.lesson_date = ie.2.1) && decide (l.time_slot = ie.2.2.2) := by
      rw [List.filter_append]
      rw [List.filter_cons_of_neg]
      · simp
      · rw [hnewfalse]
        simp
    exact ⟨by rw [hfilter]; exact hne, fun l1 hl1 => hsingle l1 (by rw [hfilter] at hl1; exact hl1)⟩
  · by_cases hcoach : l.coach_id = idByIndex.getD (ie'.1 % idByIndex.length) 0
    · have hstep : integrateStep idByIndex st ie' = st := by
        simp only [integrateStep, hm]
        rw [if_pos hcoach]
      rw [hstep]
      exact ⟨hne, hsingle⟩
    · by_cases hguard : (st.bookings.filter fun b => decide (b.lesson_id = l.id)).length = 0
      · have hstep : integrateStep idByIndex st ie' =
            { st with
              lessons := st.lessons.map fun x =>
                if decide (x.lesson_date = ie'.2.1) && decide (x.time_slot = ie'.2.2.2) then
                  { x with coach_id := idByIndex.getD (ie'.1 % idByIndex.length) 0 }
                else x } := by
          simp only [integrateStep, hm]
          rw [if_neg hcoach, if_pos hguard]
        rw [hstep]
        have hfilter : ((st.lessons.map fun x =>
            if decide (x.lesson_date = ie'.2.1) && decide (x.time_slot = ie'.2.2.2) then
              { x with coach_id := idByIndex.getD (ie'.1 % idByIndex.length) 0 }
            else x).filter fun l =>
              decide (l.lesson_date = ie.2.1) && decide (l.time_slot = ie.2.2.2)) =
            st.lessons.filter fun l =>
              decide (l.lesson_date = ie.2.1) && decide (l.time_slot = ie.2.2.2) := by
          rw [filter_map_comm]
          · apply map_self_of_fixed
            intro x hx
            have hpx := (List.mem_filter.mp hx).2
            rw [if_neg]
            rw [hdisjoint x hpx]
            simp
          · intro x
            by_cases hx : (decide (x.lesson_date = ie'.2.1)
                && decide (x.time_slot = ie'.2.2.2)) = true
            · rw [if_pos hx]
            · rw [if_neg hx]
        exact ⟨by rw [hfilter]; exact hne,
          fun l1 hl1 => hsingle l1 (by rw [hfilter] at hl1; exact hl1)⟩
      · have hstep : integrateStep idByIndex st ie' = st := by
          simp only [integrateStep, hm]
          rw [if_neg hcoach, if_neg hguard]
        rw [hstep]
        exact ⟨hne, hsingle⟩
  · have hstep : integrateStep idByIndex st ie' = st := by
      simp only [integrateStep, hm]
    rw [hstep]
    exact ⟨hne, hsingle⟩

theorem integratedAt_foldl_preserved (idByIndex : List Nat) (ies : List (Nat × Event)) :
    ∀ (st : State) (ie : Nat × Event),
      (∀ ie' ∈ ies, ¬(ie'.2.1 = ie.2.1 ∧ ie'.2.2.2 = ie.2.2.2)) →
      integratedAt idByIndex st ie →
      integratedAt idByIndex (ies.foldl (integrateStep idByIndex) st) ie := by
  induction ies with
  | nil => intro st ie _ h; exact h
  | cons ie0 rest ih =>
    intro st ie hks h
    rw [List.foldl_cons]
    exact ih _ ie (fun ie' hie' => hks ie' (List.mem_cons_of_mem _ hie'))
      (integratedAt_preserved idByIndex st (hks ie0 (List.mem_cons_self _ _)) h)

theorem integrate_fold_all_integrated (idByIndex : List Nat) :
    ∀ (ies : List (Nat × Event)) (st : State),
      (ies.Pairwise fun a b => ¬(a.2.1 = b.2.1 ∧ a.2.2.2 = b.2.2.2)) →
      ∀ ie ∈ ies, integratedAt idByIndex (ies.foldl (integrateStep idByIndex) st) ie := by
  intro ies
  induction ies with
  | nil => intro st _ ie hie; exact absurd hie (List.not_mem_nil ie)
  | cons ie0 rest ih =>
    intro st hpw ie hie
    rw [List.foldl_cons]
    rcases List.mem_cons.mp hie with rfl | hmem
    · apply integratedAt_foldl_preserved
      · intro ie' hie'
        have hr := (List.pairwise_cons.mp hpw).1 ie' hie'
        intro hk
        exact hr ⟨hk.1.symm, hk.2.symm⟩
      · exact integratedAt_after_step idByIndex st ie
    · exact ih _ (List.pairwise_cons.mp hpw).2 ie hmem

theorem integrate_new_coach_eq_self {s : State} (cid start weeks : Nat)
    (h : (sortCoaches s.coaches).isEmpty = true) :
    integrate_new_coach s cid start weeks = s := by
  unfold integrate_new_coach
  simp [h]

theorem integrate_new_coach_eq_foldl {s : State} (cid start weeks : Nat)
    (h : (sortCoaches s.coaches).isEmpty = false) :
    integrate_new_coach s cid start weeks =
      (sortEvents (iter_events start (start + 7 * weeks))).enum.foldl
        (integrateStep ((sortCoaches s.coaches).map (fun c => c.id))) s := by
  unfold integrate_new_coach
  simp [h]

/-- C5: running `integrate_new_coach` twice in a row, with no intervening
booking or roster change, leaves the state of the first run untouched. -/
theorem C5_integrate_new_coach_idempotent (s : State) (cid start weeks : Nat) :
    integrate_new_coach (integrate_new_coach s cid start weeks) cid start weeks =
      integrate_new_coach s cid start weeks := by
  have hcoaches : (integrate_new_coach s cid start weeks).coaches = s.coaches :=
    (integrate_new_coach_inv s cid start weeks).2.1
  by_cases he : (sortCoaches s.coaches).isEmpty = true
  · rw [integrate_new_coach_eq_self cid start weeks he]
    exact integrate_new_coach_eq_self cid start weeks he
  · rw [Bool.not_eq_true] at he
    have he2 : (sortCoaches (integrate_new_coach s cid start weeks).coaches).isEmpty = false := by
      rw [hcoaches]
      exact he
    rw [integrate_new_coach_eq_foldl cid start weeks he2, hcoaches]
    rw [integrate_new_coach_eq_foldl cid start weeks he]
    have hpw : ((sortEvents (iter_events start (start + 7 * weeks))).enum.Pairwise
        fun a b => ¬(a.2.1 = b.2.1 ∧ a.2.2.2 = b.2.2.2)) := by
      have h0 := sortEvents_iter_pairwise_keyNe start (start + 7 * weeks)
      have h1 : (((sortEvents (iter_events start (start + 7 * weeks))).enum.map
          Prod.snd).Pairwise fun a b => ¬(a.1 = b.1 ∧ a.2.2 = b.2.2)) := by
        rw [List.enum_map_snd]
        exact h0
      rw [List.pairwise_map] at h1
      exact h1
    apply foldl_fixed_of_mem
    intro ie hie
    exact (integrate_fold_all_integrated _ _ s hpw ie hie).step_fixed

/-! ### The booking arbiter -/

theorem cancel_booking_eval {s : State} {bid : Nat} {b : Booking} {lesson : Lesson}
    {rng : Nat × Nat}
    (hb : s.bookings.find? (fun x => decide (x.id = bid)) = some b)
    (hfl : s.lessons.find? (fun x => decide (x.id = b.lesson_id)) = some lesson)
    (hr : TIME_SLOT_RANGES lesson.time_slot = some rng)
    (role : String) (uid : Nat) (now : Int) :
    cancel_booking s role uid bid now =
      if role ≠ "learner" ∨ b.learner_id ≠ uid then (.notAllowed, s)
      else if 1440 * (lesson.lesson_date : Int) + (rng.1 : Int) - now < 24 * 60 then
        (.windowError, s)
      else
        (.cancelled,
         { s with
            bookings := s.bookings.map fun x =>
              if x.id = bid then { x with booking_status := "cancelled" } else x }) := by
  simp only [cancel_booking, hb, hfl, hr]

theorem mark_attended_eval {s : State} {bid : Nat} {b : Booking} {lesson : Lesson}
    {learner : Learner}
    (hb : s.bookings.find? (fun x => decide (x.id = bid)) = some b)
    (hl : s.lessons.find? (fun x => decide (x.id = b.lesson_id)) = some lesson)
    (hlr : s.learners.find? (fun x => decide (x.id = b.learner_id)) = some learner) :
    mark_attended s bid = some
      { s with
        bookings := s.bookings.map fun x =>
          if x.id = bid then
            { x with
              attended := true
              booking_status := "attended"
              grade_updated := x.grade_updated ||
                (decide (learner.current_grade < lesson.grade_level) && ! b.grade_updated) }
          else x
        learners :=
          if (decide (learner.current_grade < lesson.grade_level) && ! b.grade_updated) then
            s.learners.map fun x =>
              if x.id = learner.id then { x with current_grade := lesson.grade_level } else x
          else s.learners } := by
  simp only [mark_attended, hb, hl, hlr]

theorem find?_map_of_id_preserved {α : Type _} (l : List α) (idf : α → Nat) (bid : Nat)
    (g : α → α) (hg : ∀ x, idf (g x) = idf x) :
    (l.map g).find? (fun x => decide (idf x = bid)) =
      Option.map g (l.find? (fun x => decide (idf x = bid))) := by
  have hp : ((fun x => decide (idf x = bid)) ∘ g) = (fun x => decide (idf x = bid)) := by
    funext x
    simp [Function.comp, hg x]
  rw [List.find?_map, hp]

theorem cancel_booking_ok {s : State} {role : String} {uid bid : Nat} {now : Int}
    {s2 : State} (h : cancel_booking s role uid bid now = (.cancelled, s2)) :
    (∃ b, s.bookings.find? (fun x => decide (x.id = bid)) = some b) ∧
    s2 = { s with
      bookings := s.bookings.map fun x =>
        if x.id = bid then { x with booking_status := "cancelled" } else x } := by
  unfold cancel_booking at h
  cases hf : s.bookings.find? (fun x => decide (x.id = bid)) with
  | none =>
    rw [hf] at h
    simp at h
  | some b =>
    rw [hf] at h
    simp only at h
    by_cases hauth : role ≠ "learner" ∨ b.learner_id ≠ uid
    · rw [if_pos hauth] at h
      simp at h
    · rw [if_neg hauth] at h
      cases hfl : s.lessons.find? (fun x => decide (x.id = b.lesson_id)) with
      | none =>
        rw [hfl] at h
        simp at h
      | some lesson =>
        rw [hfl] at h
        simp only at h
        cases hr : TIME_SLOT_RANGES lesson.time_slot with
        | none =>
          rw [hr] at h
          simp at h
        | some rng =>
          rw [hr] at h
          simp only at h
          by_cases hw : 1440 * (lesson.lesson_date : Int) + (rng.1 : Int) - now < 24 * 60
          · rw [if_pos hw] at h
            simp at h
          · rw [if_neg hw] at h
            simp only [Prod.mk.injEq] at h
            exact ⟨⟨b, rfl⟩, h.2.symm⟩

theorem mark_attended_ok {s : State} {bid : Nat} {s2 : State}
    (h : mark_attended s bid = some s2) :
    ∃ b lesson learner,
      s.bookings.find? (fun x => decide (x.id = bid)) = some b ∧
      s.lessons.find? (fun x => decide (x.id = b.lesson_id)) = some lesson ∧
      s.learners.find? (fun x => decide (x.id = b.learner_id)) = some learner ∧
      s2 = { s with
        bookings := s.bookings.map fun x =>
          if x.id = bid then
            { x with
              attended := true
              booking_status := "attended"
              grade_updated := x.grade_updated ||
                (decide (learner.current_grade < lesson.grade_level) && ! b.grade_updated) }
          else x
        learners :=
          if (decide (learner.current_grade < lesson.grade_level) && ! b.grade_updated) then
            s.learners.map fun x =>
              if x.id = learner.id then { x with current_grade := lesson.grade_level } else x
          else s.learners } := by
  unfold mark_attended at h
  cases hf : s.bookings.find? (fun x => decide (x.id = bid)) with
  | none =>
    rw [hf] at h
    simp at h
  | some b =>
    rw [hf] at h
    simp only at h
    cases hl : s.lessons.find? (fun x => decide (x.id = b.lesson_id)) with
    | none =>
      rw [hl] at h
      simp at h
    | some lesson =>
      rw [hl] at h
      cases hlr : s.learners.find? (fun x => decide (x.id = b.learner_id)) with
      | none =>
        rw [hlr] at h
        simp at h
      | some learner =>
        rw [hlr] at h
        simp only [Option.some.injEq] at h
        exact ⟨b, lesson, learner, rfl, hl, hlr, h.symm⟩

theorem booked_count_after_cancel (lessonId bid : Nat) :
    ∀ (l : List Booking) (b : Booking),
      (l.map fun x => x.id).Nodup →
      l.find? (fun x => decide (x.id = bid)) = some b →
      b.booking_status = "booked" → b.lesson_id = lessonId →
      ((l.map fun x =>
          if x.id = bid then { x with booking_status := "cancelled" } else x).filter
            fun x => decide (x.lesson_id = lessonId)
              && decide (x.booking_status = "booked")).length + 1 =
        (l.filter fun x => decide (x.lesson_id = lessonId)
          && decide (x.booking_status = "booked")).length := by
  intro l
  induction l with
  | nil =>
    intro b _ hfind
    simp at hfind
  | cons y ys ih =>
    intro b hn hfind hstatus hlesson
    by_cases hy : y.id = bid
    · have hpy : decide (y.id = bid) = true := by simp [hy]
      rw [List.find?_cons, hpy, Option.some.injEq] at hfind
      subst hfind
      have hrest : ∀ x ∈ ys, x.id ≠ bid := by
        intro x hx hxid
        rw [List.map_cons] at hn
        have h1 := (List.nodup_cons.mp hn).1
        rw [hy] at h1
        rw [← hxid] at h1
        exact h1 (List.mem_map_of_mem _ hx)
      rw [List.map_cons, if_pos hy]
      have hmap : (ys.map fun x =>
          if x.id = bid then { x with booking_status := "cancelled" } else x) = ys := by
        apply map_self_of_fixed
        intro x hx
        rw [if_neg (hrest x hx)]
      rw [hmap]
      have hqc : (decide (({ y with booking_status := "cancelled" } : Booking).lesson_id = lessonId)
          && decide (({ y with booking_status := "cancelled" } : Booking).booking_status
            = "booked")) = false := by simp
      have hqy : (decide (y.lesson_id = lessonId) && decide (y.booking_status = "booked")) = true := by
        simp [hlesson, hstatus]
      rw [List.filter_cons, hqc, if_neg (by simp), List.filter_cons, hqy, if_pos rfl]
      simp
    · have hpy : decide (y.id = bid) = false := by simp [hy]
      rw [List.find?_cons, hpy] at hfind
      rw [List.map_cons, if_neg hy]
      have hn2 : (ys.map fun x => x.id).Nodup := by
        rw [List.map_cons] at hn
        exact (List.nodup_cons.mp hn).2
      by_cases hq : (decide (y.lesson_id = lessonId) && decide (y.booking_status = "booked")) = true
      · rw [List.filter_cons, hq, if_pos rfl, List.filter_cons, hq, if_pos rfl]
        simp only [List.length_cons]
        have := ih b hn2 hfind hstatus hlesson
        omega
      · rw [Bool.not_eq_true] at hq
        rw [List.filter_cons, hq, if_neg (by simp), List.filter_cons, hq, if_neg (by simp)]
        exact ih b hn2 hfind hstatus hlesson

/-- C6: available spaces are `capacity - count(status=booked)`, fullness is
`available <= 0`, booking an eligible learner onto a full lesson fails with the
capacity error and changes nothing, and a successful cancellation of a booked
booking frees exactly one space. -/
theorem C6_capacity_accounting (s : State) (l : Lesson) :
    get_available_spaces s l = (l.max_capacity : Int) -
      ((s.bookings.filter fun b =>
        decide (b.lesson_id = l.id) && decide (b.booking_status = "booked")).length : Int) ∧
    (is_full s l = true ↔ get_available_spaces s l ≤ 0) ∧
    (∀ user : Learner, s.lessons.find? (fun x => decide (x.id = l.id)) = some l →
      can_book_grade user l.grade_level = true → is_full s l = true →
      book_lesson s "learner" user l.id = (.capacityError, s)) ∧
    (∀ (bid : Nat) (now : Int) (s2 : State) (b : Booking),
      (s.bookings.map fun x => x.id).Nodup →
      s.bookings.find? (fun x => decide (x.id = bid)) = some b →
      b.booking_status = "booked" → b.lesson_id = l.id →
      cancel_booking s "learner" b.learner_id bid now = (.cancelled, s2) →
      get_available_spaces s2 l = get_available_spaces s l + 1) := by
  refine ⟨rfl, by simp [is_full], ?_, ?_⟩
  · intro user hfind hcan hfull
    simp [book_lesson, hfind, hcan, hfull]
  · intro bid now s2 b hnodup hfind hstatus hlesson hcancel
    obtain ⟨_, hs2⟩ := cancel_booking_ok hcancel
    subst hs2
    have hcount := booked_count_after_cancel l.id bid s.bookings b hnodup hfind hstatus hlesson
    unfold get_available_spaces
    simp only
    omega

theorem C6_capacity_accounting_witness :
    get_available_spaces fullLessonState ⟨5, "Monday", "4-5pm", 1, 1, 4, 0⟩ = 0 ∧
    book_lesson fullLessonState "learner" ⟨5, 1⟩ 5 = (.capacityError, fullLessonState) ∧
    ∃ s2, cancel_booking fullLessonState "learner" 1 1 (-1000) = (.cancelled, s2) ∧
      get_available_spaces s2 ⟨5, "Monday", "4-5pm", 1, 1, 4, 0⟩ =
        get_available_spaces fullLessonState ⟨5, "Monday", "4-5pm", 1, 1, 4, 0⟩ + 1 :=
  ⟨by decide,
    (C6_capacity_accounting fullLessonState ⟨5, "Monday", "4-5pm", 1, 1, 4, 0⟩).2.2.1
      ⟨5, 1⟩ rfl (by decide) (by decide),
    ⟨{ fullLessonState with
        bookings := [⟨1, 1, 5, "cancelled", false, false⟩, ⟨2, 2, 5, "booked", false, false⟩,
          ⟨3, 3, 5, "booked", false, false⟩, ⟨4, 4, 5, "booked", false, false⟩] },
      by decide,
      (C6_capacity_accounting fullLessonState ⟨5, "Monday", "4-5pm", 1, 1, 4, 0⟩).2.2.2
        1 (-1000) _ ⟨1, 1, 5, "booked", false, false⟩ (by decide) rfl rfl rfl (by decide)⟩⟩

/-- C7: cancellation fails with the authorization error for every actor that
does not own the booking, fails with the window error exactly when the
lesson's start is less than 24 hours after `now`, and on success rewrites the
booking's status to cancelled, touching nothing else. -/
theorem C7_cancel_window_and_authorization (s : State) (bid : Nat) (b : Booking)
    (lesson : Lesson) (rng : Nat × Nat)
    (hb : s.bookings.find? (fun x => decide (x.id = bid)) = some b)
    (hl : s.lessons.find? (fun x => decide (x.id = b.lesson_id)) = some lesson)
    (hr : TIME_SLOT_RANGES lesson.time_slot = some rng) :
    (∀ (role : String) (uid : Nat) (now : Int), role ≠ "learner" ∨ b.learner_id ≠ uid →
      cancel_booking s role uid bid now = (.notAllowed, s)) ∧
    (∀ now : Int,
      (cancel_booking s "learner" b.learner_id bid now).1 = .windowError ↔
        1440 * (lesson.lesson_date : Int) + (rng.1 : Int) - now < 24 * 60) ∧
    (∀ now : Int, 24 * 60 ≤ 1440 * (lesson.lesson_date : Int) + (rng.1 : Int) - now →
      ∃ s2, cancel_booking s "learner" b.learner_id bid now = (.cancelled, s2) ∧
        s2.lessons = s.lessons ∧ s2.learners = s.learners ∧ s2.coaches = s.coaches ∧
        s2.templates = s.templates ∧
        ∀ x ∈ s.bookings, (x.id ≠ bid → x ∈ s2.bookings) ∧
          (x.id = bid → { x with booking_status := "cancelled" } ∈ s2.bookings)) := by
  refine ⟨?_, ?_, ?_⟩
  · intro role uid now hauth
    rw [cancel_booking_eval hb hl hr, if_pos hauth]
  · intro now
    rw [cancel_booking_eval hb hl hr, if_neg (by simp)]
    by_cases hw : 1440 * (lesson.lesson_date : Int) + (rng.1 : Int) - now < 24 * 60
    · rw [if_pos hw]
      simpa using hw
    · rw [if_neg hw]
      constructor
      · intro hcon
        exact absurd hcon (by simp)
      · intro hcon
        exact absurd hcon hw
  · intro now hw
    rw [cancel_booking_eval hb hl hr, if_neg (by simp), if_neg (by omega)]
    refine ⟨_, rfl, rfl, rfl, rfl, rfl, ?_⟩
    intro x hx
    constructor
    · intro hne
      simp only
      refine List.mem_map.mpr ⟨x, hx, ?_⟩
      rw [if_neg hne]
    · intro heq
      simp only
      refine List.mem_map.mpr ⟨x, hx, ?_⟩
      rw [if_pos heq]

theorem C7_cancel_window_and_authorization_witness :
    cancel_booking cancelWindowState "coach" 1 1 0 = (.notAllowed, cancelWindowState) ∧
    (cancel_booking cancelWindowState "learner" 1 1 (15360 - 1439)).1 = .windowError ∧
    ∃ s2, cancel_booking cancelWindowState "learner" 1 1 (15360 - 1441) = (.cancelled, s2) :=
  ⟨(C7_cancel_window_and_authorization cancelWindowState 1
      ⟨1, 1, 5, "booked", false, false⟩ ⟨5, "Monday", "4-5pm", 1, 1, 4, 10⟩ (960, 1020)
      rfl rfl rfl).1 "coach" 1 0 (Or.inl (by decide)),
    (C7_cancel_window_and_authorization cancelWindowState 1
      ⟨1, 1, 5, "booked", false, false⟩ ⟨5, "Monday", "4-5pm", 1, 1, 4, 10⟩ (960, 1020)
      rfl rfl rfl).2.1 (15360 - 1439) |>.mpr (by decide),
    ((C7_cancel_window_and_authorization cancelWindowState 1
      ⟨1, 1, 5, "booked", false, false⟩ ⟨5, "Monday", "4-5pm", 1, 1, 4, 10⟩ (960, 1020)
      rfl rfl rfl).2.2 (15360 - 1441) (by decide)).elim fun s2 h => ⟨s2, h.1⟩⟩

theorem booking_eq_of_fields {a b : Booking} (h1 : a.id = b.id)
    (h2 : a.learner_id = b.learner_id) (h3 : a.lesson_id = b.lesson_id)
    (h4 : a.booking_status = b.booking_status) (h5 : a.attended = b.attended)
    (h6 : a.grade_updated = b.grade_updated) : a = b := by
  cases a
  cases b
  simp_all

/-- C8: `mark_attended` sets `attended` and the status, promotes the learner's
grade exactly when the lesson's grade exceeds it and `grade_updated` was
still false (setting the flag), and a second call on the same booking changes
nothing more. -/
theorem C8_mark_attended_promotes_once (s : State) (bid : Nat) (b : Booking)
    (lesson : Lesson) (learner : Learner)
    (hb : s.bookings.find? (fun x => decide (x.id = bid)) = some b)
    (hl : s.lessons.find? (fun x => decide (x.id = b.lesson_id)) = some lesson)
    (hlr : s.learners.find? (fun x => decide (x.id = b.learner_id)) = some learner) :
    ∃ s2, mark_attended s bid = some s2 ∧
      s2.bookings.find? (fun x => decide (x.id = bid)) = some
        { b with
          attended := true
          booking_status := "attended"
          grade_updated := b.grade_updated ||
            (decide (learner.current_grade < lesson.grade_level) && ! b.grade_updated) } ∧
      s2.learners.find? (fun x => decide (x.id = b.learner_id)) = some
        (if (decide (learner.current_grade < lesson.grade_level) && ! b.grade_updated) = true
          then { learner with current_grade := lesson.grade_level } else learner) ∧
      s2.lessons = s.lessons ∧
      mark_attended s2 bid = some s2 := by
  have hbid : b.id = bid := by simpa using List.find?_some hb
  have hlid : learner.id = b.learner_id := by simpa using List.find?_some hlr
  have heval := mark_attended_eval hb hl hlr
  set promote := (decide (learner.current_grade < lesson.grade_level) && ! b.grade_updated)
    with hpromote
  set g : Booking → Booking := fun x =>
    if x.id = bid then
      { x with
        attended := true
        booking_status := "attended"
        grade_updated := x.grade_updated || promote }
    else x
    with hg
  have hgid : ∀ x : Booking, (g x).id = x.id := by
    intro x
    by_cases hx : x.id = bid
    · simp [hg, hx]
    · simp [hg, hx]
  have hfind2 : (s.bookings.map g).find? (fun x => decide (x.id = bid)) = some (g b) := by
    rw [find?_map_of_id_preserved s.bookings (fun x => x.id) bid g hgid, hb, Option.map_some']
  have hgb : g b =
      { b with
        attended := true
        booking_status := "attended"
        grade_updated := b.grade_updated || promote } := by
    simp only [hg]
    rw [if_pos hbid]
  refine ⟨_, heval, ?_, ?_, rfl, ?_⟩
  · simp only
    rw [hfind2, hgb]
  · simp only
    by_cases hp : promote = true
    · rw [if_pos hp, if_pos hp]
      set g2 : Learner → Learner := fun x =>
        if x.id = learner.id then { x with current_grade := lesson.grade_level } else x
        with hg2
      have hg2id : ∀ x : Learner, (g2 x).id = x.id := by
        intro x
        by_cases hx : x.id = learner.id
        · simp [hg2, hx]
        · simp [hg2, hx]
      have := find?_map_of_id_preserved s.learners (fun x => x.id) b.learner_id g2 hg2id
      rw [this, hlr, Option.map_some']
      simp [hg2]
    · rw [Bool.not_eq_true] at hp
      rw [hp]
      simp only [Bool.false_eq_true, if_false]
      exact hlr
  · -- the second call changes nothing
    have hb2 : ({ s with
        bookings := s.bookings.map g
        learners :=
          if promote then
            s.learners.map fun x =>
              if x.id = learner.id then { x with current_grade := lesson.grade_level } else x
          else s.learners } : State).bookings.find? (fun x => decide (x.id = bid)) =
        some (g b) := hfind2
    have hgblesson : (g b).lesson_id = b.lesson_id := by
      rw [hgb]
    have hgblearner : (g b).learner_id = b.learner_id := by
      rw [hgb]
    have hl2 : ({ s with
        bookings := s.bookings.map g
        learners :=
          if promote then
            s.learners.map fun x =>
              if x.id = learner.id then { x with current_grade := lesson.grade_level } else x
          else s.learners } : State).lessons.find?
          (fun x => decide (x.id = (g b).lesson_id)) = some lesson := by
      simp only [hgblesson]
      exact hl
    by_cases hp : promote = true
    · -- the first call already promoted: the flag blocks a second promotion
      have hlr2 : ({ s with
          bookings := s.bookings.map g
          learners :=
            if promote then
              s.learners.map fun x =>
                if x.id = learner.id then { x with current_grade := lesson.grade_level } else x
            else s.learners } : State).learners.find?
            (fun x => decide (x.id = (g b).learner_id)) =
          some { learner with current_grade := lesson.grade_level } := by
        simp only [hgblearner, if_pos hp]
        set g2 : Learner → Learner := fun x =>
          if x.id = learner.id then { x with current_grade := lesson.grade_level } else x
          with hg2
        have hg2id : ∀ x : Learner, (g2 x).id = x.id := by
          intro x
          by_cases hx : x.id = learner.id
          · simp [hg2, hx]
          · simp [hg2, hx]
        rw [find?_map_of_id_preserved s.learners (fun x => x.id) b.learner_id g2 hg2id, hlr,
          Option.map_some']
        simp [hg2]
      have heval2 := mark_attended_eval hb2 hl2 hlr2
      rw [heval2]
      congr 1
      have hgu : (g b).grade_updated = true := by
        rw [hgb]
        simp [hp]
      have hpromote2 : (decide (({ learner with
          current_grade := lesson.grade_level } : Learner).current_grade < lesson.grade_level)
            && ! (g b).grade_updated) = false := by
        rw [hgu]
        simp
      apply state_eq_of_fields
      · rfl
      · simp only [hpromote2, Bool.false_eq_true, if_false]
      · rfl
      · rfl
      · simp only [hpromote2]
        apply map_self_of_fixed
        intro x hx
        by_cases hxid : x.id = bid
        · simp only [if_pos hxid]
          obtain ⟨y, hy, rfl⟩ := List.mem_map.mp hx
          have hyid : y.id = bid := by
            rw [← hgid y]
            exact hxid
          have hgy : g y =
              { y with
                attended := true
                booking_status := "attended"
                grade_updated := y.grade_updated || promote } := by
            simp only [hg]
            rw [if_pos hyid]
          rw [hgy]
          apply booking_eq_of_fields <;> simp
        · simp only [if_neg hxid]
      · rfl
      · rfl
    · -- no promotion happened, and none happens on the second call either
      rw [Bool.not_eq_true] at hp
      have hlr2 : ({ s with
          bookings := s.bookings.map g
          learners :=
            if promote then
              s.learners.map fun x =>
                if x.id = learner.id then { x with current_grade := lesson.grade_level } else x
            else s.learners } : State).learners.find?
            (fun x => decide (x.id = (g b).learner_id)) = some learner := by
        simp only [hgblearner, hp, Bool.false_eq_true, if_false]
        exact hlr
      have heval2 := mark_attended_eval hb2 hl2 hlr2
      rw [heval2]
      congr 1
      have hgu : (g b).grade_updated = b.grade_updated := by
        rw [hgb]
        simp [hp]
      have hpromote2 : (decide (learner.current_grade < lesson.grade_level)
          && ! (g b).grade_updated) = false := by
        rw [hgu, ← hpromote]
        exact hp
      apply state_eq_of_fields
      · rfl
      · simp only [hpromote2, Bool.false_eq_true, if_false]
      · rfl
      · rfl
      · simp only [hpromote2]
        apply map_self_of_fixed
        intro x hx
        by_cases hxid : x.id = bid
        · simp only [if_pos hxid]
          obtain ⟨y, hy, rfl⟩ := List.mem_map.mp hx
          have hyid : y.id = bid := by
            rw [← hgid y]
            exact hxid
          have hgy : g y =
              { y with
                attended := true
                booking_status := "attended"
                grade_updated := y.grade_updated || promote } := by
            simp only [hg]
            rw [if_pos hyid]
          rw [hgy]
          apply booking_eq_of_fields <;> simp
        · simp only [if_neg hxid]
      · rfl
      · rfl

theorem C8_mark_attended_promotes_once_witness :
    promotionState.bookings.find? (fun x => decide (x.id = 1)) =
      some ⟨1, 1, 5, "booked", false, false⟩ ∧
    ∃ s2, mark_attended promotionState 1 = some s2 ∧ mark_attended s2 1 = some s2 :=
  ⟨rfl,
    (C8_mark_attended_promotes_once promotionState 1 ⟨1, 1, 5, "booked", false, false⟩
      ⟨5, "Monday", "5-6pm", 2, 1, 4, 0⟩ ⟨1, 0⟩ rfl rfl rfl).elim
      fun s2 h => ⟨s2, h.1, h.2.2.2.2⟩⟩

/-- C9 (counterexample): `mark_attended` does not check the prior status, so a
booking whose status is already `cancelled` transitions to `attended` — the
claimed rule that no operation changes the status of a non-`booked` booking is
false on this store. -/
theorem C9_cancelled_to_attended_counterexample :
    cancelledBookingState.bookings.map (fun b => b.booking_status) = ["cancelled"] ∧
    ∃ s2, mark_attended cancelledBookingState 1 = some s2 ∧
      s2.bookings.map (fun b => b.booking_status) = ["attended"] :=
  ⟨rfl, ⟨_, rfl, rfl⟩⟩

/-- C9 (amended): the process-start sweep is the only guarded transition — it
reclassifies exactly the `booked` rows of past lessons to `missed` and keeps
every non-`booked` row unchanged — while `cancel_booking` and `mark_attended`
overwrite the found booking's status to `cancelled` resp. `attended`
regardless of its prior value. -/
theorem C9_status_transitions_amended (s : State) :
    (∀ (today : Nat) (b : Booking), b ∈ s.bookings → b.booking_status ≠ "booked" →
      b ∈ (sweep_missed s today).bookings) ∧
    (∀ (today : Nat) (b : Booking), b ∈ s.bookings → b.booking_status = "booked" →
      (s.lessons.any fun l =>
        decide (l.id = b.lesson_id) && decide (l.lesson_date < today)) = true →
      { b with booking_status := "missed" } ∈ (sweep_missed s today).bookings) ∧
    (∀ (bid : Nat) (s2 : State), mark_attended s bid = some s2 →
      ∃ b2, s2.bookings.find? (fun x => decide (x.id = bid)) = some b2 ∧
        b2.booking_status = "attended" ∧ b2.attended = true) ∧
    (∀ (role : String) (uid bid : Nat) (now : Int) (s2 : State),
      cancel_booking s role uid bid now = (.cancelled, s2) →
      ∃ b2, s2.bookings.find? (fun x => decide (x.id = bid)) = some b2 ∧
        b2.booking_status = "cancelled") := by
  refine ⟨?_, ?_, ?_, ?_⟩
  · intro today b hmem hstatus
    unfold sweep_missed
    simp only
    refine List.mem_map.mpr ⟨b, hmem, ?_⟩
    rw [if_neg]
    simp [hstatus]
  · intro today b hmem hstatus hpast
    unfold sweep_missed
    simp only
    refine List.mem_map.mpr ⟨b, hmem, ?_⟩
    rw [if_pos]
    simp [hstatus, hpast]
  · intro bid s2 h
    obtain ⟨b, lesson, learner, hf, hl, hlr, hs2⟩ := mark_attended_ok h
    have hbid : b.id = bid := by simpa using List.find?_some hf
    subst hs2
    set g : Booking → Booking := fun x =>
      if x.id = bid then
        { x with
          attended := true
          booking_status := "attended"
          grade_updated := x.grade_updated ||
            (decide (learner.current_grade < lesson.grade_level) && ! b.grade_updated) }
      else x
      with hg
    have hgid : ∀ x : Booking, (g x).id = x.id := by
      intro x
      by_cases hx : x.id = bid
      · simp [hg, hx]
      · simp [hg, hx]
    refine ⟨g b, ?_, ?_, ?_⟩
    · simp only
      rw [find?_map_of_id_preserved s.bookings (fun x => x.id) bid g hgid, hf, Option.map_some']
    · simp [hg, hbid]
    · simp [hg, hbid]
  · intro role uid bid now s2 h
    obtain ⟨⟨b, hf⟩, hs2⟩ := cancel_booking_ok h
    have hbid : b.id = bid := by simpa using List.find?_some hf
    subst hs2
    set g : Booking → Booking := fun x =>
      if x.id = bid then { x with booking_status := "cancelled" } else x
      with hg
    have hgid : ∀ x : Booking, (g x).id = x.id := by
      intro x
      by_cases hx : x.id = bid
      · simp [hg, hx]
      · simp [hg, hx]
    refine ⟨g b, ?_, ?_⟩
    · simp only
      rw [find?_map_of_id_preserved s.bookings (fun x => x.id) bid g hgid, hf, Option.map_some']
    · simp [hg, hbid]

theorem C9_status_transitions_amended_witness :
    (⟨1, 1, 5, "cancelled", false, false⟩ : Booking) ∈
      (sweep_missed cancelledBookingState 10).bookings ∧
    ∃ b2, ∃ s2, mark_attended cancelledBookingState 1 = some s2 ∧
      s2.bookings.find? (fun x => decide (x.id = 1)) = some b2 ∧
      b2.booking_status = "attended" :=
  ⟨(C9_status_transitions_amended cancelledBookingState).1 10
      ⟨1, 1, 5, "cancelled", false, false⟩ (List.mem_cons_self _ _) (by decide),
    ((C9_status_transitions_amended cancelledBookingState).2.2.1 1 _ rfl).elim
      fun b2 h => ⟨b2, _, rfl, h.1, h.2.1⟩⟩

end Summer
